import Mathlib

/-!
# rateLimit: per-IP admission control

A shallow embedding of `src/main.go`: the limiter registry (`visitors`, `getVisitor`),
the key extraction (`getIP`) and the middleware (`rateLimitByIP`), together with a model
of the token bucket that the program obtains from `golang.org/x/time/rate`.

Conventions of the embedding.

* A `*rate.Limiter` is an address (`Nat`) into a heap of bucket states; the Go map
  `visitors` is a partial function from keys to addresses.  Two results are "the same
  bucket instance" when they are the same address.
* Time is a rational number of seconds; the token level is a rational number.
* Effects are explicit: a handler maps the response writer, the request and the world
  (registry, standard output, clock reading) to the new writer and the new world.
-/

namespace RateLimit

/-! ## Constants of `src/main.go` (lines 14-19) -/

def requestsPerIP : Nat := 10

def rateLimitRequests : Nat := 3

def rateLimitPerSec : Nat := 1

def serverPort : String := ":8080"

/-! ## Token bucket -/

/-- Modelled from the spec: the type `rate.Limiter` of `golang.org/x/time/rate` is imported
by `src/main.go` and not defined under `src/`.  Section 3 of the specification gives its
state: the capacity (maximum burst), the refill rate in tokens per second, the current
token level and the instant of the last update. -/
structure TokenBucket where
  capacity : ℚ
  refillRate : ℚ
  tokens : ℚ
  lastRefill : ℚ
deriving DecidableEq

/-- Modelled from the spec: the constructor `rate.NewLimiter(r, b)` is not defined under
`src/`.  Section 4.2: a new bucket starts with `tokens = capacity` and `lastRefill = now`. -/
def NewLimiter (r : ℚ) (b : ℚ) (now : ℚ) : TokenBucket :=
  { capacity := b, refillRate := r, tokens := b, lastRefill := now }

/-- Modelled from the spec: the method `(*rate.Limiter).Allow` is not defined under `src/`.
Section 4.1, `tryConsume(now)`: the elapsed time is `now - lastRefill`, taken as `0` when
the clock appears to go backward; the level is refilled to
`min(capacity, tokens + elapsed * refillRate)` and `lastRefill` becomes `now`; when the
level is at least `1` one token is taken and the answer is `true`, otherwise the answer is
`false` and the level stays as refilled. -/
def TokenBucket.tryConsume (b : TokenBucket) (now : ℚ) : Bool × TokenBucket :=
  let elapsed := if now - b.lastRefill < 0 then 0 else now - b.lastRefill
  let tokens := min b.capacity (b.tokens + elapsed * b.refillRate)
  if 1 ≤ tokens then
    (true, { b with tokens := tokens - 1, lastRefill := now })
  else
    (false, { b with tokens := tokens, lastRefill := now })

/-- A sequence of admission checks on one bucket, at the given instants, in order:
the decisions and the final bucket state. -/
def runChecks (b : TokenBucket) : List ℚ → List Bool × TokenBucket
  | [] => ([], b)
  | t :: ts =>
    let r := b.tryConsume t
    let rest := runChecks r.2 ts
    (r.1 :: rest.1, rest.2)

/-- Number of `true` decisions in a list of decisions. -/
def admitted (ds : List Bool) : Nat := ds.count true

/-! ## Registry (`visitors`, lines 21-24) -/

/-- The package-level map `visitors : map[string]*rate.Limiter` with the heap its pointers
refer to.  `fresh` is the next unused address: cells at or above it hold no limiter yet. -/
structure Registry where
  visitors : String → Option Nat
  heap : Nat → TokenBucket
  fresh : Nat

/-- The registry at program start: `make(map[string]*rate.Limiter)`. -/
def emptyRegistry : Registry :=
  { visitors := fun _ => none, heap := fun _ => NewLimiter 0 0 0, fresh := 0 }

/-- The function `getVisitor` (lines 40-51), run under `mu`: look the key up; when absent,
allocate `rate.NewLimiter(rateLimitPerSec, rateLimitRequests)` and store its address under
the key; return the address. -/
def getVisitor (ip : String) (now : ℚ) (reg : Registry) : Nat × Registry :=
  match reg.visitors ip with
  | some limiter => (limiter, reg)
  | none =>
    let limiter := reg.fresh
    (limiter,
      { visitors := fun k => if k = ip then some limiter else reg.visitors k,
        heap := fun q =>
          if q = limiter then NewLimiter rateLimitPerSec rateLimitRequests now else reg.heap q,
        fresh := limiter + 1 })

/-- The call `limiter.Allow()`: one admission check, at the instant `now`, on the bucket
stored at address `limiter`; the bucket is updated in place. -/
def Allow (limiter : Nat) (now : ℚ) (reg : Registry) : Bool × Registry :=
  let r := (reg.heap limiter).tryConsume now
  (r.1, { reg with heap := fun q => if q = limiter then r.2 else reg.heap q })

/-- One admission check for a key, as the middleware performs it (lines 56-57):
`getVisitor(ip)` followed by `Allow()` on the limiter it returned. -/
def admissionCheck (ip : String) (now : ℚ) (reg : Registry) : Bool × Registry :=
  let v := getVisitor ip now reg
  Allow v.1 now v.2

/-- A sequence of admission checks, each for its own key at its own instant. -/
def checkAll (reg : Registry) : List (String × ℚ) → List Bool × Registry
  | [] => ([], reg)
  | c :: cs =>
    let r := admissionCheck c.1 c.2 reg
    let rest := checkAll r.2 cs
    (r.1 :: rest.1, rest.2)

/-- A sequence of `getVisitor` calls: the addresses returned and the final registry. -/
def visitAll (reg : Registry) : List (String × ℚ) → List Nat × Registry
  | [] => ([], reg)
  | c :: cs =>
    let r := getVisitor c.1 c.2 reg
    let rest := visitAll r.2 cs
    (r.1 :: rest.1, rest.2)

/-- Well-formed registry: every stored address is allocated and no two keys share one. -/
def Registry.WF (reg : Registry) : Prop :=
  (∀ k p, reg.visitors k = some p → p < reg.fresh) ∧
  (∀ k₁ k₂ p, reg.visitors k₁ = some p → reg.visitors k₂ = some p → k₁ = k₂)

/-- Bucket invariant of the configured limiter. -/
def TokenBucket.Valid (b : TokenBucket) : Prop :=
  b.capacity = rateLimitRequests ∧ b.refillRate = rateLimitPerSec ∧
    0 ≤ b.tokens ∧ b.tokens ≤ b.capacity

/-- The bucket on which an admission check for key `k` at the instant `now` operates:
the one stored for `k`, or the one `getVisitor` creates when `k` has no entry. -/
def Registry.bucket (reg : Registry) (k : String) (now : ℚ) : TokenBucket :=
  match reg.visitors k with
  | some p => reg.heap p
  | none => NewLimiter rateLimitPerSec rateLimitRequests now

/-- Invariant of the registries the program reaches: well-formed, and every stored bucket
has the configured capacity and rate and a token level within bounds. -/
def Registry.Inv (reg : Registry) : Prop :=
  reg.WF ∧ ∀ k p, reg.visitors k = some p → (reg.heap p).Valid

/-- The same key checked at each of the given instants. -/
def keyed (k : String) (ts : List ℚ) : List (String × ℚ) := ts.map fun t => (k, t)

/-! ## HTTP middleware (lines 35-38 and 53-67) -/

/-- The three results `(host, port string, err error)` of `net.SplitHostPort`;
`err = none` stands for a nil error. -/
structure HostPort where
  host : String
  port : String
  err : Option String

/-- The part of `*http.Request` the program reads (`RemoteAddr`) and the part that
identifies the request to the wrapped handler. -/
structure Request where
  Method : String
  URL : String
  RemoteAddr : String
deriving DecidableEq

/-- A call made on an `http.ResponseWriter`. -/
inductive WriterCall where
  | WriteHeader (code : Nat)
  | Write (text : String)
deriving DecidableEq

/-- An `http.ResponseWriter`, observed through the calls made on it so far. -/
abbrev ResponseWriter := List WriterCall

/-- Everything a handler can read or change: the registry, the text printed on standard
output, and the reading `time.Now()` gives while the request is handled. -/
structure World where
  reg : Registry
  stdout : String
  now : ℚ

/-- An `http.Handler`: `ServeHTTP(w, r)` with its effects made explicit. -/
abbrev Handler := ResponseWriter → Request → World → ResponseWriter × World

/-- Modelled from the spec: the constant `http.StatusTooManyRequests` is not defined under
`src/`; section 6 of the specification fixes the status code as HTTP 429. -/
def StatusTooManyRequests : Nat := 429

/-- Modelled from the spec: the table `http.StatusText` is not defined under `src/`; only
the entry the program uses is given, the fixed textual reason of status 429. -/
def StatusText (code : Nat) : String :=
  if code = 429 then "Too Many Requests" else ""

/-- Modelled from the spec: the function `http.Error` is not defined under `src/`;
section 4.3 of the specification describes its outcome as a fixed status signal plus a
human-readable message written to the response. -/
def Error (w : ResponseWriter) (msg : String) (code : Nat) : ResponseWriter :=
  w ++ [WriterCall.WriteHeader code, WriterCall.Write msg]

/-- The function `getIP` (lines 35-38): the host result of `net.SplitHostPort(r.RemoteAddr)`,
the port and the error being discarded.  `net.SplitHostPort` is a standard-library
function and is taken as a parameter. -/
def getIP (SplitHostPort : String → HostPort) (r : Request) : String :=
  (SplitHostPort r.RemoteAddr).host

/-- The function `rateLimitByIP` (lines 53-67). -/
def rateLimitByIP (SplitHostPort : String → HostPort) (next : Handler) : Handler :=
  fun w r σ =>
    let ip := getIP SplitHostPort r
    let v := getVisitor ip σ.now σ.reg
    let a := Allow v.1 σ.now v.2
    if !a.1 then
      (Error w (StatusText StatusTooManyRequests) StatusTooManyRequests,
        { σ with
          reg := a.2,
          stdout := σ.stdout ++ ("Request from IP " ++ ip ++ " was denied\n") })
    else
      next w r
        { σ with
          reg := a.2,
          stdout := σ.stdout ++ ("Request from IP " ++ ip ++ " was allowed\n") }

/-- The handler registered in `main` (lines 179-181): it writes the greeting. -/
def helloHandler : Handler :=
  fun w _ σ => (w ++ [WriterCall.Write "Hello, World!"], σ)

/-- A handler that does nothing; used as a probe for the middleware's own effects. -/
def idleHandler : Handler :=
  fun w _ σ => (w, σ)

/-- A stand-in for `net.SplitHostPort` on concrete inputs: the text before the first colon
is the host, the text after it the port; without a colon the split fails, with empty host
and port. -/
def splitAtColon (addr : String) : HostPort :=
  match addr.data.dropWhile (fun c => c != ':') with
  | [] => { host := "", port := "", err := some "missing port in address" }
  | _ :: port =>
    { host := String.mk (addr.data.takeWhile (fun c => c != ':')),
      port := String.mk port,
      err := none }

/-- A request as `makeRequest` (lines 72-73) builds it for the address `127.0.0.1`. -/
def sampleRequest : Request :=
  { Method := "GET", URL := "http://localhost:8080", RemoteAddr := "127.0.0.1:123456" }

/-- A request whose `RemoteAddr` has no port, so that the split fails. -/
def portlessRequest : Request :=
  { Method := "GET", URL := "http://localhost:8080", RemoteAddr := "127.0.0.1" }

/-- A request whose `RemoteAddr` has an empty host part. -/
def hostlessRequest : Request :=
  { Method := "GET", URL := "http://localhost:8080", RemoteAddr := ":8080" }

/-- The world at program start, at instant `0`. -/
def freshWorld : World :=
  { reg := emptyRegistry, stdout := "", now := 0 }

/-- The world at instant `0` after three checks for `127.0.0.1` at that instant. -/
def exhaustedWorld : World :=
  { reg := (checkAll emptyRegistry [("127.0.0.1", 0), ("127.0.0.1", 0), ("127.0.0.1", 0)]).2,
    stdout := "",
    now := 0 }

/-! ## Goroutines calling `getVisitor` concurrently -/

/-- Control point of one goroutine inside `getVisitor` (lines 40-51). -/
inductive Pc where
  | start
  | locked
  | looked (found : Option Nat)
  | made (limiter : Nat)
  | ready (limiter : Nat)
  | done (limiter : Nat)
deriving DecidableEq

/-- The shared registry, the mutex `mu` (`true` when held) and the control point of every
goroutine. -/
structure Sys where
  reg : Registry
  mu : Bool
  pcs : Nat → Pc

/-- All goroutines are about to call `getVisitor`; the mutex is free. -/
def Sys.init (reg : Registry) : Sys :=
  { reg := reg, mu := false, pcs := fun _ => Pc.start }

/-- One step of goroutine `i` executing `getVisitor(ip)`:
`start`: `mu.Lock()` (line 41), which waits while the mutex is held;
`locked`: the lookup `limiter, exists := visitors[ip]` (line 44);
`looked`: the test `!exists` (line 45) and, when the key is absent, the allocation
`rate.NewLimiter(...)` (line 46);
`made`: the store `visitors[ip] = limiter` (line 47);
`ready`: `return limiter` (line 50) with the deferred `mu.Unlock()` (line 42);
`done`: the call has returned. -/
def step (ip : String) (now : ℚ) (i : Nat) (s : Sys) : Sys :=
  match s.pcs i with
  | Pc.start =>
    if s.mu then s
    else { s with mu := true, pcs := Function.update s.pcs i Pc.locked }
  | Pc.locked =>
    { s with pcs := Function.update s.pcs i (Pc.looked (s.reg.visitors ip)) }
  | Pc.looked (some limiter) =>
    { s with pcs := Function.update s.pcs i (Pc.ready limiter) }
  | Pc.looked none =>
    { s with
      reg :=
        { s.reg with
          heap := fun q =>
            if q = s.reg.fresh then NewLimiter rateLimitPerSec rateLimitRequests now
            else s.reg.heap q,
          fresh := s.reg.fresh + 1 },
      pcs := Function.update s.pcs i (Pc.made s.reg.fresh) }
  | Pc.made limiter =>
    { s with
      reg := { s.reg with visitors := fun k => if k = ip then some limiter else s.reg.visitors k },
      pcs := Function.update s.pcs i (Pc.ready limiter) }
  | Pc.ready limiter =>
    { s with mu := false, pcs := Function.update s.pcs i (Pc.done limiter) }
  | Pc.done _ => s

/-- An interleaving: the goroutines take steps in the order of the schedule, each entry
naming the goroutine that moves and the clock reading at that moment. -/
def runSchedule (ip : String) (s : Sys) : List (Nat × ℚ) → Sys
  | [] => s
  | c :: cs => runSchedule ip (step ip c.2 c.1 s) cs

/-- Goroutine `i` holds the mutex. -/
def Pc.holds : Pc → Bool
  | Pc.locked => true
  | Pc.looked _ => true
  | Pc.made _ => true
  | Pc.ready _ => true
  | _ => false

/-- What the registry must look like for a goroutine at a given control point, when all
goroutines call `getVisitor(k)` and the registry had no entry for `k` and next unused
address `f0` when they started. -/
def PcOk (k : String) (f0 : Nat) (reg : Registry) : Pc → Prop
  | Pc.start => True
  | Pc.locked => True
  | Pc.looked found => found = reg.visitors k ∧ (found = none → reg.fresh = f0)
  | Pc.made limiter => limiter = f0 ∧ reg.visitors k = none ∧ reg.fresh = f0 + 1
  | Pc.ready limiter => limiter = f0 ∧ reg.visitors k = some f0 ∧ reg.fresh = f0 + 1
  | Pc.done limiter => limiter = f0 ∧ reg.visitors k = some f0 ∧ reg.fresh = f0 + 1

/-- Invariant of every interleaving of goroutines calling `getVisitor(k)` from the
registry `reg0`, which had no entry for `k`. -/
structure SysInv (k : String) (reg0 : Registry) (s : Sys) : Prop where
  lock_held : s.mu = true → ∃ j, (s.pcs j).holds = true
  lock_free : s.mu = false → ∀ j, (s.pcs j).holds = false
  unique : ∀ i j, (s.pcs i).holds = true → (s.pcs j).holds = true → i = j
  entry : s.reg.visitors k = none ∨ s.reg.visitors k = some reg0.fresh
  entry_fresh : s.reg.visitors k = some reg0.fresh → s.reg.fresh = reg0.fresh + 1
  absent_fresh : s.reg.visitors k = none →
    s.reg.fresh = reg0.fresh ∨
      (s.reg.fresh = reg0.fresh + 1 ∧ ∃ j, s.pcs j = Pc.made reg0.fresh)
  others : ∀ k', k' ≠ k → s.reg.visitors k' = reg0.visitors k'
  pcOk : ∀ i, PcOk k reg0.fresh s.reg (s.pcs i)

/-- An interleaving of three goroutines: goroutine 1 takes the mutex first, goroutines 0
and 2 try in between and have to wait. -/
def sampleSchedule : List (Nat × ℚ) :=
  [(1, 0), (0, 0), (1, 0), (2, 0), (1, 0), (0, 0), (1, 0), (1, 0), (2, 0), (0, 0), (2, 0),
    (2, 0), (0, 0), (2, 0), (0, 0), (0, 0), (0, 0), (0, 0)]

/-! ## Lemmas on one bucket -/

theorem tryConsume_capacity (b : TokenBucket) (t : ℚ) :
    (b.tryConsume t).2.capacity = b.capacity := by
  unfold TokenBucket.tryConsume
  dsimp only
  split_ifs <;> rfl

theorem tryConsume_refillRate (b : TokenBucket) (t : ℚ) :
    (b.tryConsume t).2.refillRate = b.refillRate := by
  unfold TokenBucket.tryConsume
  dsimp only
  split_ifs <;> rfl

theorem tryConsume_lastRefill (b : TokenBucket) (t : ℚ) :
    (b.tryConsume t).2.lastRefill = t := by
  unfold TokenBucket.tryConsume
  dsimp only
  split_ifs <;> rfl

theorem tryConsume_tokens_le (b : TokenBucket) (t : ℚ) :
    (b.tryConsume t).2.tokens ≤ b.capacity := by
  unfold TokenBucket.tryConsume
  dsimp only
  split_ifs <;> dsimp only <;> linarith [min_le_left b.capacity (b.tokens + 0 * b.refillRate),
    min_le_left b.capacity (b.tokens + (t - b.lastRefill) * b.refillRate)]

theorem tryConsume_tokens_nonneg (b : TokenBucket) (t : ℚ) (h0 : 0 ≤ b.tokens)
    (hc : 0 ≤ b.capacity) (hr : 0 ≤ b.refillRate) : 0 ≤ (b.tryConsume t).2.tokens := by
  unfold TokenBucket.tryConsume
  dsimp only
  split_ifs with h1 h2 h2
  · dsimp only; linarith
  · dsimp only
    exact le_min hc (by simp; linarith)
  · dsimp only; linarith
  · dsimp only
    have : 0 ≤ (t - b.lastRefill) * b.refillRate := mul_nonneg (by linarith) hr
    exact le_min hc (by linarith)

theorem tryConsume_valid (b : TokenBucket) (t : ℚ) (h : b.Valid) : (b.tryConsume t).2.Valid := by
  obtain ⟨hc, hr, h0, h1⟩ := h
  refine ⟨by rw [tryConsume_capacity, hc], by rw [tryConsume_refillRate, hr], ?_, ?_⟩
  · apply tryConsume_tokens_nonneg b t h0
    · rw [hc]; exact Nat.cast_nonneg _
    · rw [hr]; exact Nat.cast_nonneg _
  · rw [tryConsume_capacity]; exact tryConsume_tokens_le b t

theorem NewLimiter_valid (t : ℚ) : (NewLimiter rateLimitPerSec rateLimitRequests t).Valid := by
  refine ⟨rfl, rfl, ?_, le_refl _⟩
  show (0 : ℚ) ≤ (rateLimitRequests : ℚ)
  exact Nat.cast_nonneg _

theorem runChecks_valid (ts : List ℚ) : ∀ b : TokenBucket, b.Valid → (runChecks b ts).2.Valid := by
  induction ts with
  | nil => intro b h; exact h
  | cons t ts ih => intro b h; exact ih _ (tryConsume_valid b t h)

/-- The value `1` for an admitted check and `0` for a denied one. -/
theorem tryConsume_first (b : TokenBucket) (t : ℚ) :
    (if (b.tryConsume t).1 then (1 : ℚ) else 0) + (b.tryConsume t).2.tokens ≤ b.capacity := by
  unfold TokenBucket.tryConsume
  dsimp only
  split_ifs <;> first | (exfalso; assumption) | simp

theorem tryConsume_budget (b : TokenBucket) (t : ℚ) (ht : b.lastRefill ≤ t) :
    (if (b.tryConsume t).1 then (1 : ℚ) else 0) + (b.tryConsume t).2.tokens
      ≤ b.tokens + (t - b.lastRefill) * b.refillRate := by
  unfold TokenBucket.tryConsume
  dsimp only
  have h0 : ¬ (t - b.lastRefill < 0) := by linarith
  rw [if_neg h0]
  split_ifs <;> first | (exfalso; assumption) | simp

theorem runChecks_lastRefill_le (u : ℚ) (ts : List ℚ) :
    ∀ b : TokenBucket, b.lastRefill ≤ u → (∀ t ∈ ts, t ≤ u) →
      (runChecks b ts).2.lastRefill ≤ u := by
  induction ts with
  | nil => intro b hb _; exact hb
  | cons t ts ih =>
    intro b _ h
    apply ih _ _ (fun x hx => h x (List.mem_cons_of_mem _ hx))
    rw [tryConsume_lastRefill]
    exact h t (List.mem_cons_self _ _)

theorem admitted_cons (d : Bool) (ds : List Bool) :
    (admitted (d :: ds) : ℚ) = (if d then (1 : ℚ) else 0) + admitted ds := by
  unfold admitted
  cases d <;> simp [List.count_cons]
  ring

theorem runChecks_budget (ts : List ℚ) :
    ∀ b : TokenBucket, (∀ t ∈ ts, b.lastRefill ≤ t) →
      ts.Pairwise (· ≤ ·) →
      (admitted (runChecks b ts).1 : ℚ) + (runChecks b ts).2.tokens
        ≤ b.tokens + ((runChecks b ts).2.lastRefill - b.lastRefill) * b.refillRate := by
  induction ts with
  | nil => intro b _ _; simp [runChecks, admitted]
  | cons t ts ih =>
    intro b hlow hp
    rw [List.pairwise_cons] at hp
    have hstep := tryConsume_budget b t (hlow t (List.mem_cons_self _ _))
    have hrest := ih (b.tryConsume t).2
      (by rw [tryConsume_lastRefill]; exact hp.1) hp.2
    rw [tryConsume_lastRefill, tryConsume_refillRate] at hrest
    show (admitted ((b.tryConsume t).1 :: (runChecks (b.tryConsume t).2 ts).1) : ℚ)
        + (runChecks (b.tryConsume t).2 ts).2.tokens
      ≤ b.tokens + ((runChecks (b.tryConsume t).2 ts).2.lastRefill - b.lastRefill) * b.refillRate
    rw [admitted_cons]
    nlinarith [hstep, hrest]

/-- Sorted checks inside a window of length `T` on a valid bucket admit at most
`capacity + T * refillRate` requests. -/
theorem runChecks_window (b : TokenBucket) (hb : b.Valid) (ts : List ℚ) (w T : ℚ)
    (hT : 0 ≤ T) (hmono : ts.Pairwise (· ≤ ·)) (hwin : ∀ t ∈ ts, w ≤ t ∧ t ≤ w + T) :
    (admitted (runChecks b ts).1 : ℚ) ≤ rateLimitRequests + T * rateLimitPerSec := by
  have h3 : (0 : ℚ) ≤ (rateLimitRequests : ℚ) := Nat.cast_nonneg _
  have h1 : (0 : ℚ) ≤ (rateLimitPerSec : ℚ) := Nat.cast_nonneg _
  cases ts with
  | nil =>
    have : (0 : ℚ) ≤ T * rateLimitPerSec := mul_nonneg hT h1
    simp [runChecks, admitted]
    linarith
  | cons t ts =>
    rw [List.pairwise_cons] at hmono
    have hv := tryConsume_valid b t hb
    have hfirst := tryConsume_first b t
    have hrest := runChecks_budget ts (b.tryConsume t).2
      (by rw [tryConsume_lastRefill]; exact hmono.1) hmono.2
    have hlast := runChecks_lastRefill_le (w + T) ts (b.tryConsume t).2
      (by rw [tryConsume_lastRefill]; exact (hwin t (List.mem_cons_self _ _)).2)
      (fun x hx => (hwin x (List.mem_cons_of_mem _ hx)).2)
    have hfin := (runChecks_valid ts _ hv).2.2.1
    rw [tryConsume_lastRefill, hv.2.1] at hrest
    have hw := (hwin t (List.mem_cons_self _ _)).1
    show (admitted ((b.tryConsume t).1 :: (runChecks (b.tryConsume t).2 ts).1) : ℚ)
      ≤ rateLimitRequests + T * rateLimitPerSec
    rw [admitted_cons, hb.1] at *
    nlinarith [hfirst, hrest, hlast, hfin, hw, h1]

/-! ## Lemmas on the registry -/

theorem getVisitor_some (reg : Registry) (ip : String) (now : ℚ) (p : Nat)
    (h : reg.visitors ip = some p) : getVisitor ip now reg = (p, reg) := by
  simp [getVisitor, h]

theorem getVisitor_none_fst (reg : Registry) (ip : String) (now : ℚ)
    (h : reg.visitors ip = none) : (getVisitor ip now reg).1 = reg.fresh := by
  simp [getVisitor, h]

theorem getVisitor_none_visitors (reg : Registry) (ip : String) (now : ℚ)
    (h : reg.visitors ip = none) (k : String) :
    (getVisitor ip now reg).2.visitors k = if k = ip then some reg.fresh else reg.visitors k := by
  simp [getVisitor, h]

theorem getVisitor_none_heap (reg : Registry) (ip : String) (now : ℚ)
    (h : reg.visitors ip = none) (q : Nat) :
    (getVisitor ip now reg).2.heap q =
      if q = reg.fresh then NewLimiter rateLimitPerSec rateLimitRequests now else reg.heap q := by
  simp [getVisitor, h]

theorem getVisitor_none_fresh (reg : Registry) (ip : String) (now : ℚ)
    (h : reg.visitors ip = none) : (getVisitor ip now reg).2.fresh = reg.fresh + 1 := by
  simp [getVisitor, h]

theorem getVisitor_self (reg : Registry) (ip : String) (now : ℚ) :
    (getVisitor ip now reg).2.visitors ip = some (getVisitor ip now reg).1 := by
  cases h : reg.visitors ip with
  | none => simp [getVisitor, h]
  | some p => simp [getVisitor, h]

theorem getVisitor_keeps (reg : Registry) (ip : String) (now : ℚ) (k : String) (p : Nat)
    (hk : reg.visitors k = some p) : (getVisitor ip now reg).2.visitors k = some p := by
  cases h : reg.visitors ip with
  | none =>
    rw [getVisitor_none_visitors reg ip now h]
    have : k ≠ ip := by
      intro e
      rw [e, h] at hk
      exact Option.noConfusion hk
    rw [if_neg this, hk]
  | some q => rw [getVisitor_some reg ip now q h]; exact hk

theorem getVisitor_other (reg : Registry) (ip : String) (now : ℚ) (k : String) (hk : k ≠ ip) :
    (getVisitor ip now reg).2.visitors k = reg.visitors k := by
  cases h : reg.visitors ip with
  | none => rw [getVisitor_none_visitors reg ip now h, if_neg hk]
  | some q => rw [getVisitor_some reg ip now q h]

theorem getVisitor_heap_below (reg : Registry) (ip : String) (now : ℚ) (q : Nat)
    (hq : q < reg.fresh) : (getVisitor ip now reg).2.heap q = reg.heap q := by
  cases h : reg.visitors ip with
  | none => rw [getVisitor_none_heap reg ip now h, if_neg (Nat.ne_of_lt hq)]
  | some p => rw [getVisitor_some reg ip now p h]

theorem getVisitor_fresh_le (reg : Registry) (ip : String) (now : ℚ) :
    reg.fresh ≤ (getVisitor ip now reg).2.fresh := by
  cases h : reg.visitors ip with
  | none => rw [getVisitor_none_fresh reg ip now h]; exact Nat.le_succ _
  | some p => rw [getVisitor_some reg ip now p h]

theorem getVisitor_bucket (reg : Registry) (ip : String) (now : ℚ) :
    (getVisitor ip now reg).2.heap (getVisitor ip now reg).1 = reg.bucket ip now := by
  cases h : reg.visitors ip with
  | none => simp [getVisitor, Registry.bucket, h]
  | some p => simp [getVisitor, Registry.bucket, h]

theorem getVisitor_wf (reg : Registry) (ip : String) (now : ℚ) (h : reg.WF) :
    (getVisitor ip now reg).2.WF := by
  cases hv : reg.visitors ip with
  | some p => rw [getVisitor_some reg ip now p hv]; exact h
  | none =>
    obtain ⟨hlt, hinj⟩ := h
    constructor
    · intro k p hk
      rw [getVisitor_none_visitors reg ip now hv] at hk
      rw [getVisitor_none_fresh reg ip now hv]
      by_cases e : k = ip
      · rw [if_pos e] at hk
        cases hk
        exact Nat.lt_succ_self _
      · rw [if_neg e] at hk
        exact Nat.lt_succ_of_lt (hlt k p hk)
    · intro k₁ k₂ p h₁ h₂
      rw [getVisitor_none_visitors reg ip now hv] at h₁ h₂
      by_cases e₁ : k₁ = ip <;> by_cases e₂ : k₂ = ip
      · rw [e₁, e₂]
      · rw [if_pos e₁] at h₁
        rw [if_neg e₂] at h₂
        cases h₁
        exact absurd (hlt k₂ _ h₂) (Nat.lt_irrefl _)
      · rw [if_neg e₁] at h₁
        rw [if_pos e₂] at h₂
        cases h₂
        exact absurd (hlt k₁ _ h₁) (Nat.lt_irrefl _)
      · rw [if_neg e₁] at h₁
        rw [if_neg e₂] at h₂
        exact hinj k₁ k₂ p h₁ h₂

theorem Allow_visitors (p : Nat) (now : ℚ) (reg : Registry) :
    (Allow p now reg).2.visitors = reg.visitors := rfl

theorem Allow_fresh (p : Nat) (now : ℚ) (reg : Registry) :
    (Allow p now reg).2.fresh = reg.fresh := rfl

theorem Allow_fst (p : Nat) (now : ℚ) (reg : Registry) :
    (Allow p now reg).1 = ((reg.heap p).tryConsume now).1 := rfl

theorem Allow_heap (p : Nat) (now : ℚ) (reg : Registry) (q : Nat) :
    (Allow p now reg).2.heap q = if q = p then ((reg.heap p).tryConsume now).2 else reg.heap q :=
  rfl

theorem admissionCheck_fst (ip : String) (now : ℚ) (reg : Registry) :
    (admissionCheck ip now reg).1 = ((reg.bucket ip now).tryConsume now).1 := by
  unfold admissionCheck
  dsimp only
  rw [Allow_fst, getVisitor_bucket]

theorem admissionCheck_visitors (ip : String) (now : ℚ) (reg : Registry) :
    (admissionCheck ip now reg).2.visitors = (getVisitor ip now reg).2.visitors := rfl

theorem admissionCheck_fresh (ip : String) (now : ℚ) (reg : Registry) :
    (admissionCheck ip now reg).2.fresh = (getVisitor ip now reg).2.fresh := rfl

theorem admissionCheck_heap (ip : String) (now : ℚ) (reg : Registry) (q : Nat) :
    (admissionCheck ip now reg).2.heap q =
      if q = (getVisitor ip now reg).1 then ((reg.bucket ip now).tryConsume now).2
      else (getVisitor ip now reg).2.heap q := by
  unfold admissionCheck
  dsimp only
  rw [Allow_heap, getVisitor_bucket]

/-- After a check for `ip` the bucket of `ip` is the checked bucket after `tryConsume`. -/
theorem admissionCheck_bucket (ip : String) (now : ℚ) (reg : Registry) (t : ℚ) :
    (admissionCheck ip now reg).2.bucket ip t = ((reg.bucket ip now).tryConsume now).2 := by
  unfold Registry.bucket
  rw [admissionCheck_visitors, getVisitor_self]
  dsimp only
  rw [admissionCheck_heap, if_pos rfl]
  rfl

theorem admissionCheck_wf (ip : String) (now : ℚ) (reg : Registry) (h : reg.WF) :
    (admissionCheck ip now reg).2.WF := getVisitor_wf reg ip now h

theorem admissionCheck_other_visitors (ip : String) (now : ℚ) (reg : Registry) (k : String)
    (hk : k ≠ ip) : (admissionCheck ip now reg).2.visitors k = reg.visitors k := by
  rw [admissionCheck_visitors]
  exact getVisitor_other reg ip now k hk

theorem getVisitor_fst_ne (ip : String) (now : ℚ) (reg : Registry) (h : reg.WF) (k : String)
    (hk : k ≠ ip) (p : Nat) (hp : reg.visitors k = some p) : p ≠ (getVisitor ip now reg).1 := by
  cases hv : reg.visitors ip with
  | none =>
    rw [getVisitor_none_fst reg ip now hv]
    exact Nat.ne_of_lt (h.1 k p hp)
  | some q =>
    rw [getVisitor_some reg ip now q hv]
    intro e
    apply hk
    apply h.2 k ip p hp
    rw [hv, e]

theorem admissionCheck_other_heap (ip : String) (now : ℚ) (reg : Registry) (h : reg.WF)
    (k : String) (hk : k ≠ ip) (p : Nat) (hp : reg.visitors k = some p) :
    (admissionCheck ip now reg).2.heap p = reg.heap p := by
  rw [admissionCheck_heap, if_neg (getVisitor_fst_ne ip now reg h k hk p hp)]
  exact getVisitor_heap_below reg ip now p (h.1 k p hp)

theorem admissionCheck_other_bucket (ip : String) (now : ℚ) (reg : Registry) (h : reg.WF)
    (k : String) (hk : k ≠ ip) (t : ℚ) :
    (admissionCheck ip now reg).2.bucket k t = reg.bucket k t := by
  unfold Registry.bucket
  rw [admissionCheck_other_visitors ip now reg k hk]
  cases hv : reg.visitors k with
  | none => rfl
  | some p => exact admissionCheck_other_heap ip now reg h k hk p hv

theorem emptyRegistry_inv : emptyRegistry.Inv := by
  refine ⟨⟨?_, ?_⟩, ?_⟩
  · intro k p hk; exact Option.noConfusion hk
  · intro k₁ k₂ p hk; exact Option.noConfusion hk
  · intro k p hk; exact Option.noConfusion hk

theorem bucket_valid (reg : Registry) (h : reg.Inv) (k : String) (now : ℚ) :
    (reg.bucket k now).Valid := by
  unfold Registry.bucket
  cases hv : reg.visitors k with
  | none => exact NewLimiter_valid now
  | some p => exact h.2 k p hv

theorem admissionCheck_inv (ip : String) (now : ℚ) (reg : Registry) (h : reg.Inv) :
    (admissionCheck ip now reg).2.Inv := by
  refine ⟨admissionCheck_wf ip now reg h.1, ?_⟩
  intro k p hk
  by_cases e : k = ip
  · subst e
    have hb := admissionCheck_bucket k now reg now
    unfold Registry.bucket at hb
    rw [hk] at hb
    dsimp only at hb
    rw [hb]
    exact tryConsume_valid _ _ (bucket_valid reg h k now)
  · rw [admissionCheck_other_visitors ip now reg k e] at hk
    rw [admissionCheck_other_heap ip now reg h.1 k e p hk]
    exact h.2 k p hk

theorem checkAll_inv (cs : List (String × ℚ)) :
    ∀ reg : Registry, reg.Inv → (checkAll reg cs).2.Inv := by
  induction cs with
  | nil => intro reg h; exact h
  | cons c cs ih => intro reg h; exact ih _ (admissionCheck_inv c.1 c.2 reg h)

/-- Checks on one key are checks on its bucket. -/
theorem checkAll_keyed (k : String) (ts : List ℚ) :
    ∀ (t : ℚ) (reg : Registry),
      (checkAll reg (keyed k (t :: ts))).1 = (runChecks (reg.bucket k t) (t :: ts)).1 := by
  induction ts with
  | nil =>
    intro t reg
    show [(admissionCheck k t reg).1] = [((reg.bucket k t).tryConsume t).1]
    rw [admissionCheck_fst]
  | cons u ts ih =>
    intro t reg
    have h := ih u (admissionCheck k t reg).2
    rw [admissionCheck_bucket] at h
    show (admissionCheck k t reg).1 :: (checkAll (admissionCheck k t reg).2 (keyed k (u :: ts))).1
      = ((reg.bucket k t).tryConsume t).1 ::
          (runChecks ((reg.bucket k t).tryConsume t).2 (u :: ts)).1
    rw [h, admissionCheck_fst]

/-- Checks on key `a` leave the registry well-formed and the view of any other key as it was. -/
theorem checkAll_keyed_other (a b : String) (hab : a ≠ b) (ts : List ℚ) :
    ∀ reg : Registry, reg.WF →
      (checkAll reg (keyed a ts)).2.WF ∧
      (checkAll reg (keyed a ts)).2.visitors b = reg.visitors b ∧
      (∀ p, reg.visitors b = some p → (checkAll reg (keyed a ts)).2.heap p = reg.heap p) := by
  induction ts with
  | nil => intro reg h; exact ⟨h, rfl, fun _ _ => rfl⟩
  | cons t ts ih =>
    intro reg h
    have hba : b ≠ a := fun e => hab e.symm
    obtain ⟨h1, h2, h3⟩ := ih (admissionCheck a t reg).2 (admissionCheck_wf a t reg h)
    have hv := admissionCheck_other_visitors a t reg b hba
    refine ⟨h1, h2.trans hv, ?_⟩
    intro p hp
    have := h3 p (by rw [hv]; exact hp)
    exact this.trans (admissionCheck_other_heap a t reg h b hba p hp)

theorem tryConsume_admits (b : TokenBucket) (t : ℚ) (hc : 1 ≤ b.capacity) (ht : 1 ≤ b.tokens)
    (hr : 0 ≤ b.refillRate) :
    (b.tryConsume t).1 = true ∧ min b.capacity b.tokens - 1 ≤ (b.tryConsume t).2.tokens := by
  have he : 0 ≤ (if t - b.lastRefill < 0 then 0 else t - b.lastRefill) := by
    split_ifs <;> linarith
  have hm : 0 ≤ (if t - b.lastRefill < 0 then 0 else t - b.lastRefill) * b.refillRate :=
    mul_nonneg he hr
  have h1 : 1 ≤ min b.capacity
      (b.tokens + (if t - b.lastRefill < 0 then 0 else t - b.lastRefill) * b.refillRate) :=
    le_min hc (by linarith)
  unfold TokenBucket.tryConsume
  dsimp only
  rw [if_pos h1]
  refine ⟨rfl, ?_⟩
  dsimp only
  have : min b.capacity b.tokens ≤ min b.capacity
      (b.tokens + (if t - b.lastRefill < 0 then 0 else t - b.lastRefill) * b.refillRate) :=
    min_le_min (le_refl _) (by linarith)
  linarith

/-- A full bucket of capacity 3 admits three checks in a row, whatever their instants. -/
theorem runChecks_burst (b : TokenBucket) (hc : b.capacity = 3) (hr : 0 ≤ b.refillRate)
    (ht : 3 ≤ b.tokens) (t₁ t₂ t₃ : ℚ) :
    (runChecks b [t₁, t₂, t₃]).1 = [true, true, true] := by
  obtain ⟨a1, l1⟩ := tryConsume_admits b t₁ (by rw [hc]; norm_num) (by linarith) hr
  have k1 : 2 ≤ (b.tryConsume t₁).2.tokens := by
    have : (2 : ℚ) ≤ min b.capacity b.tokens - 1 := by
      have := le_min (le_of_eq hc.symm) ht
      linarith
    linarith
  obtain ⟨a2, l2⟩ := tryConsume_admits (b.tryConsume t₁).2 t₂
    (by rw [tryConsume_capacity, hc]; norm_num) (by linarith)
    (by rw [tryConsume_refillRate]; exact hr)
  have k2 : 1 ≤ ((b.tryConsume t₁).2.tryConsume t₂).2.tokens := by
    have : (2 : ℚ) ≤ min (b.tryConsume t₁).2.capacity (b.tryConsume t₁).2.tokens :=
      le_min (by rw [tryConsume_capacity, hc]; norm_num) k1
    linarith
  obtain ⟨a3, _⟩ := tryConsume_admits ((b.tryConsume t₁).2.tryConsume t₂).2 t₃
    (by rw [tryConsume_capacity, tryConsume_capacity, hc]; norm_num) k2
    (by rw [tryConsume_refillRate, tryConsume_refillRate]; exact hr)
  show [(b.tryConsume t₁).1, ((b.tryConsume t₁).2.tryConsume t₂).1,
    (((b.tryConsume t₁).2.tryConsume t₂).2.tryConsume t₃).1] = _
  rw [a1, a2, a3]

theorem visitAll_keeps (calls : List (String × ℚ)) (k : String) (p : Nat) :
    ∀ reg : Registry, reg.visitors k = some p → (visitAll reg calls).2.visitors k = some p := by
  induction calls with
  | nil => intro reg h; exact h
  | cons c cs ih => intro reg h; exact ih _ (getVisitor_keeps reg c.1 c.2 k p h)

theorem visitAll_heap_below (calls : List (String × ℚ)) (q : Nat) :
    ∀ reg : Registry, q < reg.fresh → (visitAll reg calls).2.heap q = reg.heap q := by
  induction calls with
  | nil => intro reg _; rfl
  | cons c cs ih =>
    intro reg h
    have := ih (getVisitor c.1 c.2 reg).2 (Nat.lt_of_lt_of_le h (getVisitor_fresh_le reg c.1 c.2))
    exact this.trans (getVisitor_heap_below reg c.1 c.2 q h)

theorem visitAll_returns (calls : List (String × ℚ)) (k : String) (p : Nat) :
    ∀ reg : Registry, reg.visitors k = some p →
      ∀ c ∈ List.zip calls (visitAll reg calls).1, c.1.1 = k → c.2 = p := by
  induction calls with
  | nil => intro reg _ c hc; simp [visitAll] at hc
  | cons d ds ih =>
    intro reg h c hc hk
    have hz : c ∈ (d, (getVisitor d.1 d.2 reg).1) ::
        List.zip ds (visitAll (getVisitor d.1 d.2 reg).2 ds).1 := hc
    rw [List.mem_cons] at hz
    rcases hz with e | hz
    · subst e
      dsimp only at hk ⊢
      rw [hk, getVisitor_some reg k d.2 p h]
    · exact ih _ (getVisitor_keeps reg d.1 d.2 k p h) c hz hk

theorem checkAll_keeps (cs : List (String × ℚ)) (k : String) (p : Nat) :
    ∀ reg : Registry, reg.visitors k = some p → (checkAll reg cs).2.visitors k = some p := by
  induction cs with
  | nil => intro reg h; exact h
  | cons c cs ih =>
    intro reg h
    apply ih (admissionCheck c.1 c.2 reg).2
    rw [admissionCheck_visitors]
    exact getVisitor_keeps reg c.1 c.2 k p h

/-- Number of buckets created by a sequence of `getVisitor` calls: one for each distinct key
among the calls that had no entry before. -/
theorem visitAll_fresh (calls : List (String × ℚ)) :
    ∀ reg : Registry, (visitAll reg calls).2.fresh =
      reg.fresh + ((calls.map Prod.fst).toFinset.filter fun k => reg.visitors k = none).card := by
  induction calls with
  | nil => intro reg; simp [visitAll]
  | cons c cs ih =>
    intro reg
    show (visitAll (getVisitor c.1 c.2 reg).2 cs).2.fresh = _
    rw [ih]
    cases hv : reg.visitors c.1 with
    | some p =>
      rw [getVisitor_some reg c.1 c.2 p hv]
      dsimp only
      congr 2
      rw [List.map_cons, List.toFinset_cons, Finset.filter_insert, if_neg (by rw [hv]; simp)]
    | none =>
      rw [getVisitor_none_fresh reg c.1 c.2 hv]
      have hset : ((cs.map Prod.fst).toFinset.filter
            fun k => (getVisitor c.1 c.2 reg).2.visitors k = none) =
          ((cs.map Prod.fst).toFinset.filter fun k => reg.visitors k = none).erase c.1 := by
        ext k
        simp only [Finset.mem_filter, Finset.mem_erase]
        rw [getVisitor_none_visitors reg c.1 c.2 hv]
        by_cases e : k = c.1
        · simp [e]
        · simp [e]
      rw [hset, List.map_cons, List.toFinset_cons, Finset.filter_insert, if_pos hv]
      have hc := Finset.card_erase_add_one (Finset.mem_insert_self c.1
        ((cs.map Prod.fst).toFinset.filter fun k => reg.visitors k = none))
      rw [Finset.erase_insert_eq_erase] at hc
      omega

/-! ## Claims on the token bucket and the registry -/

/-- C1: once `k` is mapped to the bucket at address `p`, after any sequence of `getVisitor`
calls the registry still maps `k` to `p`, the next `getVisitor k` returns `p` and changes
nothing, every call for `k` in the sequence returned `p`, every entry that existed is
still there, the bucket at `p` was not touched, and the number of buckets created is the
number of distinct keys among the calls that had no entry: one bucket per key at most.
The entry also survives any sequence of admission checks (`getVisitor` followed by
`Allow`). -/
theorem getVisitor_never_overwrites (reg : Registry) (k : String) (p : Nat)
    (h : reg.visitors k = some p) (calls : List (String × ℚ)) (now : ℚ) :
    (visitAll reg calls).2.visitors k = some p ∧
    getVisitor k now (visitAll reg calls).2 = (p, (visitAll reg calls).2) ∧
    (∀ c ∈ List.zip calls (visitAll reg calls).1, c.1.1 = k → c.2 = p) ∧
    (∀ k' p', reg.visitors k' = some p' → (visitAll reg calls).2.visitors k' = some p') ∧
    (p < reg.fresh → (visitAll reg calls).2.heap p = reg.heap p) ∧
    (visitAll reg calls).2.fresh =
      reg.fresh + ((calls.map Prod.fst).toFinset.filter fun k' => reg.visitors k' = none).card ∧
    (checkAll reg calls).2.visitors k = some p :=
  ⟨visitAll_keeps calls k p reg h,
    getVisitor_some _ k now p (visitAll_keeps calls k p reg h),
    visitAll_returns calls k p reg h,
    fun k' p' h' => visitAll_keeps calls k' p' reg h',
    visitAll_heap_below calls p reg,
    visitAll_fresh calls reg,
    checkAll_keeps calls k p reg h⟩

theorem getVisitor_never_overwrites_witness :
    (getVisitor "10.0.0.1" 0 emptyRegistry).2.visitors "10.0.0.1" = some 0 ∧
    (visitAll (getVisitor "10.0.0.1" 0 emptyRegistry).2
      [("10.0.0.2", 1), ("10.0.0.1", 2), ("10.0.0.2", 3)]).2.visitors "10.0.0.1" = some 0 :=
  ⟨rfl, (getVisitor_never_overwrites (getVisitor "10.0.0.1" 0 emptyRegistry).2 "10.0.0.1" 0 rfl
    [("10.0.0.2", 1), ("10.0.0.1", 2), ("10.0.0.2", 3)] 4).1⟩


/-- C2: when key `k` has no entry, `getVisitor k` allocates a bucket at the unused address,
initialised full (`tokens = capacity`, capacity 3, rate 1 per second), stores it under `k`,
returns that address, leaves every other key, every other heap cell and (in a well-formed
registry) every existing address alone; the first three checks on the new bucket are
admitted whatever their instants. -/
theorem getVisitor_creates_full_bucket (reg : Registry) (k : String) (now : ℚ)
    (h : reg.visitors k = none) :
    (getVisitor k now reg).1 = reg.fresh ∧
    (getVisitor k now reg).2.visitors k = some (getVisitor k now reg).1 ∧
    (getVisitor k now reg).2.heap (getVisitor k now reg).1 =
      { capacity := 3, refillRate := 1, tokens := 3, lastRefill := now } ∧
    ((getVisitor k now reg).2.heap (getVisitor k now reg).1).tokens =
      ((getVisitor k now reg).2.heap (getVisitor k now reg).1).capacity ∧
    (∀ k', k' ≠ k → (getVisitor k now reg).2.visitors k' = reg.visitors k') ∧
    (∀ q, q ≠ reg.fresh → (getVisitor k now reg).2.heap q = reg.heap q) ∧
    (reg.WF → ∀ k' p, reg.visitors k' = some p → p ≠ (getVisitor k now reg).1) ∧
    (∀ t₁ t₂ t₃ : ℚ,
      (runChecks ((getVisitor k now reg).2.heap (getVisitor k now reg).1) [t₁, t₂, t₃]).1 =
        [true, true, true]) := by
  have hb : (getVisitor k now reg).2.heap (getVisitor k now reg).1 =
      { capacity := 3, refillRate := 1, tokens := 3, lastRefill := now } := by
    rw [getVisitor_bucket]
    simp [Registry.bucket, h, NewLimiter, rateLimitPerSec, rateLimitRequests]
  refine ⟨getVisitor_none_fst reg k now h, getVisitor_self reg k now, hb, by rw [hb], ?_, ?_, ?_, ?_⟩
  · intro k' hk
    exact getVisitor_other reg k now k' hk
  · intro q hq
    rw [getVisitor_none_heap reg k now h, if_neg hq]
  · intro hwf k' p hp
    rw [getVisitor_none_fst reg k now h]
    exact Nat.ne_of_lt (hwf.1 k' p hp)
  · intro t₁ t₂ t₃
    rw [hb]
    exact runChecks_burst _ rfl (by norm_num) (le_refl _) t₁ t₂ t₃

theorem getVisitor_creates_full_bucket_witness :
    emptyRegistry.visitors "127.0.0.1" = none ∧
    (getVisitor "127.0.0.1" 5 emptyRegistry).1 = 0 ∧
    (getVisitor "127.0.0.1" 5 emptyRegistry).2.heap 0 =
      { capacity := 3, refillRate := 1, tokens := 3, lastRefill := 5 } :=
  ⟨rfl, (getVisitor_creates_full_bucket emptyRegistry "127.0.0.1" 5 rfl).1,
    (getVisitor_creates_full_bucket emptyRegistry "127.0.0.1" 5 rfl).2.2.1⟩

/-- C5: for a key without an entry, checks through `getVisitor(k).Allow()` at the instants
`t, t, t, t, t + 1, t + 1` are decided `true, true, true, false, true, false`. -/
theorem burst_then_refill (reg : Registry) (k : String) (t : ℚ) (h : reg.visitors k = none) :
    (checkAll reg [(k, t), (k, t), (k, t), (k, t), (k, t + 1), (k, t + 1)]).1 =
      [true, true, true, false, true, false] := by
  show (checkAll reg (keyed k [t, t, t, t, t + 1, t + 1])).1 = _
  rw [checkAll_keyed]
  have hb : reg.bucket k t = NewLimiter rateLimitPerSec rateLimitRequests t := by
    simp [Registry.bucket, h]
  rw [hb]
  norm_num [runChecks, TokenBucket.tryConsume, NewLimiter, rateLimitPerSec, rateLimitRequests]

theorem burst_then_refill_witness :
    emptyRegistry.visitors "127.0.0.1" = none ∧
    (checkAll emptyRegistry
      [("127.0.0.1", 7), ("127.0.0.1", 7), ("127.0.0.1", 7), ("127.0.0.1", 7),
        ("127.0.0.1", 7 + 1), ("127.0.0.1", 7 + 1)]).1 =
      [true, true, true, false, true, false] :=
  ⟨rfl, burst_then_refill emptyRegistry "127.0.0.1" 7 rfl⟩

/-- C6: in a well-formed registry, any number of admission checks for key `a` leave the
entry of a different key `b` and the bucket stored for `b` unchanged, and the decision of
the next check on `b`, at any instant, is the one it would have been without them. -/
theorem key_isolation (reg : Registry) (hwf : reg.WF) (a b : String) (hab : a ≠ b)
    (ts : List ℚ) (t : ℚ) :
    (checkAll reg (ts.map fun u => (a, u))).2.visitors b = reg.visitors b ∧
    (∀ p, reg.visitors b = some p →
      (checkAll reg (ts.map fun u => (a, u))).2.heap p = reg.heap p) ∧
    (admissionCheck b t (checkAll reg (ts.map fun u => (a, u))).2).1 =
      (admissionCheck b t reg).1 := by
  obtain ⟨_, h2, h3⟩ := checkAll_keyed_other a b hab ts reg hwf
  refine ⟨h2, h3, ?_⟩
  rw [admissionCheck_fst, admissionCheck_fst]
  have hb : (checkAll reg (keyed a ts)).2.bucket b t = reg.bucket b t := by
    unfold Registry.bucket
    rw [h2]
    cases hv : reg.visitors b with
    | none => rfl
    | some p => exact h3 p hv
  show (((checkAll reg (keyed a ts)).2.bucket b t).tryConsume t).1 = _
  rw [hb]

theorem key_isolation_witness :
    (checkAll emptyRegistry [("10.0.0.2", 0)]).2.WF ∧ "10.0.0.1" ≠ "10.0.0.2" ∧
    (admissionCheck "10.0.0.2" 0
      (checkAll (checkAll emptyRegistry [("10.0.0.2", 0)]).2
        ([(0 : ℚ), 0, 0, 0].map fun u => ("10.0.0.1", u))).2).1 =
      (admissionCheck "10.0.0.2" 0 (checkAll emptyRegistry [("10.0.0.2", 0)]).2).1 :=
  ⟨(checkAll_inv _ _ emptyRegistry_inv).1, by decide,
    (key_isolation (checkAll emptyRegistry [("10.0.0.2", 0)]).2
      (checkAll_inv _ _ emptyRegistry_inv).1 "10.0.0.1" "10.0.0.2" (by decide)
      [0, 0, 0, 0] 0).2.2⟩

/-- C7: every bucket state reached from a newly created bucket (capacity 3, rate 1 per
second) by admission checks at arbitrary instants has `0 ≤ tokens ≤ capacity`, with
capacity 3; the same holds for the bucket of every key in every registry reached from the
empty one by admission checks. -/
theorem tokens_within_bounds (t₀ : ℚ) (ts : List ℚ) (pre : List (String × ℚ)) (k : String)
    (now : ℚ) :
    (0 ≤ (runChecks (NewLimiter rateLimitPerSec rateLimitRequests t₀) ts).2.tokens ∧
      (runChecks (NewLimiter rateLimitPerSec rateLimitRequests t₀) ts).2.tokens ≤
        (runChecks (NewLimiter rateLimitPerSec rateLimitRequests t₀) ts).2.capacity ∧
      (runChecks (NewLimiter rateLimitPerSec rateLimitRequests t₀) ts).2.capacity = 3) ∧
    (0 ≤ ((checkAll emptyRegistry pre).2.bucket k now).tokens ∧
      ((checkAll emptyRegistry pre).2.bucket k now).tokens ≤
        ((checkAll emptyRegistry pre).2.bucket k now).capacity ∧
      ((checkAll emptyRegistry pre).2.bucket k now).capacity = 3) := by
  have h1 := runChecks_valid ts _ (NewLimiter_valid t₀)
  have h2 := bucket_valid _ (checkAll_inv pre _ emptyRegistry_inv) k now
  refine ⟨⟨h1.2.2.1, h1.2.2.2, ?_⟩, ⟨h2.2.2.1, h2.2.2.2, ?_⟩⟩
  · rw [h1.1]; norm_num [rateLimitRequests]
  · rw [h2.1]; norm_num [rateLimitRequests]

/-- C8, as amended: in a registry reached from the empty one, admission checks on the
bucket of key `k` issued at non-decreasing instants that lie in a window of duration `T`
admit at most `3 + floor(T * 1)` requests. -/
theorem admission_bound_monotone (pre : List (String × ℚ)) (k : String) (ts : List ℚ)
    (w T : ℚ) (hT : 0 ≤ T) (hmono : ts.Pairwise (· ≤ ·))
    (hwin : ∀ t ∈ ts, w ≤ t ∧ t ≤ w + T) :
    (admitted (checkAll (checkAll emptyRegistry pre).2 (ts.map fun t => (k, t))).1 : ℤ) ≤
      (rateLimitRequests : ℤ) + ⌊T * (rateLimitPerSec : ℚ)⌋ := by
  have hq : (admitted (checkAll (checkAll emptyRegistry pre).2 (keyed k ts)).1 : ℚ) ≤
      rateLimitRequests + T * rateLimitPerSec := by
    cases ts with
    | nil =>
      have : (0 : ℚ) ≤ T * rateLimitPerSec := mul_nonneg hT (Nat.cast_nonneg _)
      have h3 : (0 : ℚ) ≤ (rateLimitRequests : ℚ) := Nat.cast_nonneg _
      simp [keyed, checkAll, admitted]
      linarith
    | cons t ts =>
      rw [checkAll_keyed]
      exact runChecks_window _ (bucket_valid _ (checkAll_inv pre _ emptyRegistry_inv) k t)
        (t :: ts) w T hT hmono hwin
  have hz : ((admitted (checkAll (checkAll emptyRegistry pre).2 (keyed k ts)).1 : ℤ)
      - (rateLimitRequests : ℤ)) ≤ ⌊T * (rateLimitPerSec : ℚ)⌋ := by
    rw [Int.le_floor]
    push_cast
    linarith
  show (admitted (checkAll (checkAll emptyRegistry pre).2 (keyed k ts)).1 : ℤ) ≤ _
  linarith

theorem admission_bound_monotone_witness :
    (0 : ℚ) ≤ 1 ∧ [(0 : ℚ), 0, 0, 0, 1, 1].Pairwise (· ≤ ·) ∧
    (∀ t ∈ [(0 : ℚ), 0, 0, 0, 1, 1], (0 : ℚ) ≤ t ∧ t ≤ 0 + 1) ∧
    (admitted (checkAll (checkAll emptyRegistry []).2
      ([(0 : ℚ), 0, 0, 0, 1, 1].map fun t => ("10.0.0.1", t))).1 : ℤ) ≤
      (rateLimitRequests : ℤ) + ⌊(1 : ℚ) * (rateLimitPerSec : ℚ)⌋ :=
  ⟨by norm_num, by norm_num, by norm_num,
    admission_bound_monotone [] "10.0.0.1" [0, 0, 0, 0, 1, 1] 0 1 (by norm_num) (by norm_num)
      (by norm_num)⟩

/-- C8, as stated, fails: the instants `0, 1, 0, 1, 0` all lie in the window `[0, 1]` of
duration 1, yet the five checks on a fresh key are all admitted, more than `3 + floor(1)`. -/
theorem admission_bound_fails_out_of_order :
    (∀ t ∈ [(0 : ℚ), 1, 0, 1, 0], (0 : ℚ) ≤ t ∧ t ≤ 0 + 1) ∧
    (checkAll emptyRegistry
      ([(0 : ℚ), 1, 0, 1, 0].map fun t => ("10.0.0.1", t))).1 = [true, true, true, true, true] ∧
    ¬ ((admitted (checkAll emptyRegistry
        ([(0 : ℚ), 1, 0, 1, 0].map fun t => ("10.0.0.1", t))).1 : ℤ) ≤
      (rateLimitRequests : ℤ) + ⌊(1 : ℚ) * (rateLimitPerSec : ℚ)⌋) := by
  have h : (checkAll emptyRegistry
      ([(0 : ℚ), 1, 0, 1, 0].map fun t => ("10.0.0.1", t))).1 = [true, true, true, true, true] := by
    show (checkAll emptyRegistry (keyed "10.0.0.1" [0, 1, 0, 1, 0])).1 = _
    rw [checkAll_keyed]
    norm_num [runChecks, TokenBucket.tryConsume, NewLimiter, rateLimitPerSec, rateLimitRequests,
      Registry.bucket, emptyRegistry]
  refine ⟨by norm_num, h, ?_⟩
  rw [h]
  norm_num [admitted, rateLimitRequests, rateLimitPerSec]

/-! ## Claims on the middleware -/

theorem checkAll_keyed_bucket (k : String) (ts : List ℚ) :
    ∀ (t u : ℚ) (reg : Registry),
      (checkAll reg (keyed k (t :: ts))).2.bucket k u = (runChecks (reg.bucket k t) (t :: ts)).2 := by
  induction ts with
  | nil =>
    intro t u reg
    exact admissionCheck_bucket k t reg u
  | cons v ts ih =>
    intro t u reg
    have h := ih v u (admissionCheck k t reg).2
    rw [admissionCheck_bucket] at h
    exact h

theorem rateLimitByIP_of_denied (split : String → HostPort) (next : Handler)
    (w : ResponseWriter) (r : Request) (σ : World)
    (h : (Allow (getVisitor (getIP split r) σ.now σ.reg).1 σ.now
      (getVisitor (getIP split r) σ.now σ.reg).2).1 = false) :
    rateLimitByIP split next w r σ =
      (Error w (StatusText StatusTooManyRequests) StatusTooManyRequests,
        { σ with
          reg := (Allow (getVisitor (getIP split r) σ.now σ.reg).1 σ.now
            (getVisitor (getIP split r) σ.now σ.reg).2).2,
          stdout := σ.stdout ++ ("Request from IP " ++ getIP split r ++ " was denied\n") }) := by
  unfold rateLimitByIP
  simp only [h]
  rfl

theorem rateLimitByIP_of_allowed (split : String → HostPort) (next : Handler)
    (w : ResponseWriter) (r : Request) (σ : World)
    (h : (Allow (getVisitor (getIP split r) σ.now σ.reg).1 σ.now
      (getVisitor (getIP split r) σ.now σ.reg).2).1 = true) :
    rateLimitByIP split next w r σ =
      next w r
        { σ with
          reg := (Allow (getVisitor (getIP split r) σ.now σ.reg).1 σ.now
            (getVisitor (getIP split r) σ.now σ.reg).2).2,
          stdout := σ.stdout ++ ("Request from IP " ++ getIP split r ++ " was allowed\n") } := by
  unfold rateLimitByIP
  simp only [h]
  rfl

theorem sampleRequest_ip : getIP splitAtColon sampleRequest = "127.0.0.1" := by decide

theorem exhaustedWorld_denies :
    (Allow (getVisitor (getIP splitAtColon sampleRequest) exhaustedWorld.now exhaustedWorld.reg).1
      exhaustedWorld.now
      (getVisitor (getIP splitAtColon sampleRequest) exhaustedWorld.now
        exhaustedWorld.reg).2).1 = false := by
  rw [sampleRequest_ip]
  show (admissionCheck "127.0.0.1" 0 (checkAll emptyRegistry (keyed "127.0.0.1" [0, 0, 0])).2).1
    = false
  rw [admissionCheck_fst, checkAll_keyed_bucket]
  norm_num [runChecks, TokenBucket.tryConsume, NewLimiter, rateLimitPerSec, rateLimitRequests,
    Registry.bucket, emptyRegistry]

theorem freshWorld_allows :
    (Allow (getVisitor (getIP splitAtColon sampleRequest) freshWorld.now freshWorld.reg).1
      freshWorld.now
      (getVisitor (getIP splitAtColon sampleRequest) freshWorld.now freshWorld.reg).2).1 = true := by
  rw [sampleRequest_ip]
  show (admissionCheck "127.0.0.1" 0 emptyRegistry).1 = true
  rw [admissionCheck_fst]
  norm_num [TokenBucket.tryConsume, NewLimiter, rateLimitPerSec, rateLimitRequests,
    Registry.bucket, emptyRegistry]

/-- C3: when `Allow` on the bucket of the request's key returns `false`, the handler built
by `rateLimitByIP next` writes status 429 with the text "Too Many Requests" to the
response, and its whole outcome is the same whatever `next` is: `next` is not invoked. -/
theorem rateLimitByIP_denied (split : String → HostPort) (next : Handler)
    (w : ResponseWriter) (r : Request) (σ : World)
    (h : (Allow (getVisitor (getIP split r) σ.now σ.reg).1 σ.now
      (getVisitor (getIP split r) σ.now σ.reg).2).1 = false) :
    (rateLimitByIP split next w r σ).1 =
      w ++ [WriterCall.WriteHeader 429, WriterCall.Write "Too Many Requests"] ∧
    (rateLimitByIP split next w r σ).2 =
      { σ with
        reg := (Allow (getVisitor (getIP split r) σ.now σ.reg).1 σ.now
          (getVisitor (getIP split r) σ.now σ.reg).2).2,
        stdout := σ.stdout ++ ("Request from IP " ++ getIP split r ++ " was denied\n") } ∧
    (∀ other : Handler, rateLimitByIP split other w r σ = rateLimitByIP split next w r σ) := by
  refine ⟨?_, ?_, ?_⟩
  · rw [rateLimitByIP_of_denied split next w r σ h]
    rfl
  · rw [rateLimitByIP_of_denied split next w r σ h]
  · intro other
    rw [rateLimitByIP_of_denied split next w r σ h, rateLimitByIP_of_denied split other w r σ h]

theorem rateLimitByIP_denied_witness :
    (Allow (getVisitor (getIP splitAtColon sampleRequest) exhaustedWorld.now exhaustedWorld.reg).1
      exhaustedWorld.now
      (getVisitor (getIP splitAtColon sampleRequest) exhaustedWorld.now
        exhaustedWorld.reg).2).1 = false ∧
    (rateLimitByIP splitAtColon helloHandler [] sampleRequest exhaustedWorld).1 =
      [] ++ [WriterCall.WriteHeader 429, WriterCall.Write "Too Many Requests"] :=
  ⟨exhaustedWorld_denies,
    (rateLimitByIP_denied splitAtColon helloHandler [] sampleRequest exhaustedWorld
      exhaustedWorld_denies).1⟩

/-- C4, as amended: when `Allow` on the bucket of the request's key returns `true`, the
handler built by `rateLimitByIP next` is one invocation of `next` with the writer and the
request it received, in the world changed by the bucket mutation and by one line,
"Request from IP <key> was allowed", appended to standard output; the entries of other
keys are unchanged and, in a well-formed registry, so are their buckets. -/
theorem rateLimitByIP_allowed (split : String → HostPort) (next : Handler)
    (w : ResponseWriter) (r : Request) (σ : World)
    (h : (Allow (getVisitor (getIP split r) σ.now σ.reg).1 σ.now
      (getVisitor (getIP split r) σ.now σ.reg).2).1 = true) :
    rateLimitByIP split next w r σ =
      next w r
        { σ with
          reg := (Allow (getVisitor (getIP split r) σ.now σ.reg).1 σ.now
            (getVisitor (getIP split r) σ.now σ.reg).2).2,
          stdout := σ.stdout ++ ("Request from IP " ++ getIP split r ++ " was allowed\n") } ∧
    (∀ k, k ≠ getIP split r →
      (Allow (getVisitor (getIP split r) σ.now σ.reg).1 σ.now
        (getVisitor (getIP split r) σ.now σ.reg).2).2.visitors k = σ.reg.visitors k) ∧
    (σ.reg.WF → ∀ k p, k ≠ getIP split r → σ.reg.visitors k = some p →
      (Allow (getVisitor (getIP split r) σ.now σ.reg).1 σ.now
        (getVisitor (getIP split r) σ.now σ.reg).2).2.heap p = σ.reg.heap p) :=
  ⟨rateLimitByIP_of_allowed split next w r σ h,
    fun k hk => admissionCheck_other_visitors (getIP split r) σ.now σ.reg k hk,
    fun hwf k p hk hp => admissionCheck_other_heap (getIP split r) σ.now σ.reg hwf k hk p hp⟩

theorem rateLimitByIP_allowed_witness :
    (Allow (getVisitor (getIP splitAtColon sampleRequest) freshWorld.now freshWorld.reg).1
      freshWorld.now
      (getVisitor (getIP splitAtColon sampleRequest) freshWorld.now freshWorld.reg).2).1 = true ∧
    rateLimitByIP splitAtColon helloHandler [] sampleRequest freshWorld =
      helloHandler [] sampleRequest
        { freshWorld with
          reg := (Allow (getVisitor (getIP splitAtColon sampleRequest) freshWorld.now
            freshWorld.reg).1 freshWorld.now
            (getVisitor (getIP splitAtColon sampleRequest) freshWorld.now freshWorld.reg).2).2,
          stdout := freshWorld.stdout ++
            ("Request from IP " ++ getIP splitAtColon sampleRequest ++ " was allowed\n") } :=
  ⟨freshWorld_allows,
    (rateLimitByIP_allowed splitAtColon helloHandler [] sampleRequest freshWorld
      freshWorld_allows).1⟩

/-- C4, as stated, fails: on the success path the handler also prints a line on standard
output.  For the sample request in the fresh world, with a wrapped handler that does
nothing, the outcome differs from invoking the wrapped handler in the world changed by the
bucket mutation alone: standard output holds "Request from IP 127.0.0.1 was allowed". -/
theorem success_path_prints :
    (Allow (getVisitor (getIP splitAtColon sampleRequest) freshWorld.now freshWorld.reg).1
      freshWorld.now
      (getVisitor (getIP splitAtColon sampleRequest) freshWorld.now freshWorld.reg).2).1 = true ∧
    (rateLimitByIP splitAtColon idleHandler [] sampleRequest freshWorld).2.stdout =
      "Request from IP 127.0.0.1 was allowed\n" ∧
    rateLimitByIP splitAtColon idleHandler [] sampleRequest freshWorld ≠
      idleHandler [] sampleRequest
        { freshWorld with
          reg := (Allow (getVisitor (getIP splitAtColon sampleRequest) freshWorld.now
            freshWorld.reg).1 freshWorld.now
            (getVisitor (getIP splitAtColon sampleRequest) freshWorld.now
              freshWorld.reg).2).2 } := by
  have hout : (rateLimitByIP splitAtColon idleHandler [] sampleRequest freshWorld).2.stdout =
      "Request from IP 127.0.0.1 was allowed\n" := by
    rw [rateLimitByIP_of_allowed splitAtColon idleHandler [] sampleRequest freshWorld
      freshWorld_allows, sampleRequest_ip]
    decide
  refine ⟨freshWorld_allows, hout, ?_⟩
  intro e
  have e' := congrArg (fun x : ResponseWriter × World => x.2.stdout) e
  dsimp only at e'
  rw [hout] at e'
  revert e'
  decide

theorem getIP_fallback (split : String → HostPort)
    (hsplit : ∀ a, (split a).err ≠ none → (split a).host = "") (r : Request)
    (h : (split r.RemoteAddr).err ≠ none ∨ (split r.RemoteAddr).host = "") :
    getIP split r = "" := by
  unfold getIP
  rcases h with h | h
  · exact hsplit _ h
  · exact h

theorem splitAtColon_host_of_err (a : String) :
    (splitAtColon a).err ≠ none → (splitAtColon a).host = "" := by
  unfold splitAtColon
  split <;> simp

theorem rateLimitByIP_cases (split : String → HostPort) (next : Handler)
    (w : ResponseWriter) (r : Request) (σ : World) :
    rateLimitByIP split next w r σ =
      if (admissionCheck (getIP split r) σ.now σ.reg).1 = true then
        next w r
          { σ with
            reg := (admissionCheck (getIP split r) σ.now σ.reg).2,
            stdout := σ.stdout ++ ("Request from IP " ++ getIP split r ++ " was allowed\n") }
      else
        (Error w (StatusText StatusTooManyRequests) StatusTooManyRequests,
          { σ with
            reg := (admissionCheck (getIP split r) σ.now σ.reg).2,
            stdout := σ.stdout ++ ("Request from IP " ++ getIP split r ++ " was denied\n") }) := by
  cases h : (admissionCheck (getIP split r) σ.now σ.reg).1 with
  | true => rw [if_pos rfl]; exact rateLimitByIP_of_allowed split next w r σ h
  | false =>
    rw [if_neg (by simp)]
    exact rateLimitByIP_of_denied split next w r σ h

/-- C9: let `net.SplitHostPort` return an empty host whenever it returns an error.  Two
requests whose split fails, or yields an empty host, both get the key `""`; the handler
does not fail on them but forwards or rejects them on the decision of the bucket of that
key; `getVisitor` hands the second the bucket it handed the first; and on a registry
without that key, at one instant, the two requests taking turns are admitted three times
and denied the fourth: they draw on one capacity. -/
theorem fallback_key_shared (split : String → HostPort)
    (hsplit : ∀ a, (split a).err ≠ none → (split a).host = "") (r₁ r₂ : Request)
    (h₁ : (split r₁.RemoteAddr).err ≠ none ∨ (split r₁.RemoteAddr).host = "")
    (h₂ : (split r₂.RemoteAddr).err ≠ none ∨ (split r₂.RemoteAddr).host = "")
    (reg : Registry) (t₁ t₂ : ℚ) (next : Handler) (w : ResponseWriter) (σ : World) :
    getIP split r₁ = "" ∧ getIP split r₂ = "" ∧
    (getVisitor (getIP split r₂) t₂ (admissionCheck (getIP split r₁) t₁ reg).2).1 =
      (getVisitor (getIP split r₁) t₁ reg).1 ∧
    rateLimitByIP split next w r₁ σ =
      (if (admissionCheck "" σ.now σ.reg).1 = true then
        next w r₁
          { σ with
            reg := (admissionCheck "" σ.now σ.reg).2,
            stdout := σ.stdout ++ "Request from IP  was allowed\n" }
      else
        (w ++ [WriterCall.WriteHeader 429, WriterCall.Write "Too Many Requests"],
          { σ with
            reg := (admissionCheck "" σ.now σ.reg).2,
            stdout := σ.stdout ++ "Request from IP  was denied\n" })) ∧
    (reg.visitors "" = none → ∀ t : ℚ,
      (checkAll reg
        [(getIP split r₁, t), (getIP split r₂, t), (getIP split r₁, t), (getIP split r₂, t)]).1 =
        [true, true, true, false]) := by
  have e₁ := getIP_fallback split hsplit r₁ h₁
  have e₂ := getIP_fallback split hsplit r₂ h₂
  refine ⟨e₁, e₂, ?_, ?_, ?_⟩
  · rw [e₁, e₂]
    apply congrArg Prod.fst (getVisitor_some _ "" t₂ _ _)
    rw [admissionCheck_visitors]
    exact getVisitor_self reg "" t₁
  · rw [rateLimitByIP_cases, e₁]
    rfl
  · intro hv t
    rw [e₁, e₂]
    show (checkAll reg (keyed "" [t, t, t, t])).1 = _
    rw [checkAll_keyed]
    have hb : reg.bucket "" t = NewLimiter rateLimitPerSec rateLimitRequests t := by
      simp [Registry.bucket, hv]
    rw [hb]
    norm_num [runChecks, TokenBucket.tryConsume, NewLimiter, rateLimitPerSec, rateLimitRequests]

theorem fallback_key_shared_witness :
    (∀ a, (splitAtColon a).err ≠ none → (splitAtColon a).host = "") ∧
    ((splitAtColon portlessRequest.RemoteAddr).err ≠ none ∨
      (splitAtColon portlessRequest.RemoteAddr).host = "") ∧
    ((splitAtColon hostlessRequest.RemoteAddr).err ≠ none ∨
      (splitAtColon hostlessRequest.RemoteAddr).host = "") ∧
    (getVisitor (getIP splitAtColon hostlessRequest) 1
      (admissionCheck (getIP splitAtColon portlessRequest) 0 emptyRegistry).2).1 =
      (getVisitor (getIP splitAtColon portlessRequest) 0 emptyRegistry).1 :=
  ⟨splitAtColon_host_of_err, Or.inl (by decide), Or.inr (by decide),
    (fallback_key_shared splitAtColon splitAtColon_host_of_err portlessRequest hostlessRequest
      (Or.inl (by decide)) (Or.inr (by decide)) emptyRegistry 0 1 helloHandler []
      freshWorld).2.2.1⟩

/-! ## Concurrent first calls of `getVisitor` -/

theorem SysInv.init (k : String) (reg : Registry) (h : reg.visitors k = none) :
    SysInv k reg (Sys.init reg) where
  lock_held := by intro e; exact Bool.noConfusion e
  lock_free := by intro _ j; rfl
  unique := by intro i j e; exact Bool.noConfusion e
  entry := Or.inl h
  entry_fresh := by
    intro e
    have : reg.visitors k = some reg.fresh := e
    rw [h] at this
    exact Option.noConfusion this
  absent_fresh := fun _ => Or.inl rfl
  others := fun _ _ => rfl
  pcOk := fun _ => trivial

theorem SysInv.holder_unique {k : String} {reg0 : Registry} {s : Sys} (h : SysInv k reg0 s)
    {j : Nat} (hj : (s.pcs j).holds = true) (i : Nat) (hi : i ≠ j) : (s.pcs i).holds = false := by
  cases e : (s.pcs i).holds with
  | false => rfl
  | true => exact absurd (h.unique i j e hj) hi

theorem SysInv.holder_locked {k : String} {reg0 : Registry} {s : Sys} (h : SysInv k reg0 s)
    {j : Nat} (hj : (s.pcs j).holds = true) : s.mu = true := by
  cases e : s.mu with
  | true => rfl
  | false =>
    have := h.lock_free e j
    rw [hj] at this
    exact Bool.noConfusion this

/-- A step that moves goroutine `j` between control points at which it holds the mutex,
or releases it, and leaves the registry as it is, preserves the invariant. -/
theorem SysInv.move {k : String} {reg0 : Registry} {s : Sys} (h : SysInv k reg0 s) (j : Nat)
    (hj : (s.pcs j).holds = true) (pc : Pc) (hpc : pc.holds = true)
    (hok : PcOk k reg0.fresh s.reg pc) (hmade : ∀ l, s.pcs j = Pc.made l → False) :
    SysInv k reg0 { s with pcs := Function.update s.pcs j pc } where
  lock_held := fun _ => ⟨j, by simp [hpc]⟩
  lock_free := by
    intro e
    have := h.holder_locked hj
    rw [show s.mu = false from e] at this
    exact Bool.noConfusion this
  unique := by
    intro i i' hi hi'
    have a : i = j := by
      by_contra ne
      have : (Function.update s.pcs j pc i).holds = true := hi
      rw [Function.update_noteq ne, h.holder_unique hj i ne] at this
      exact Bool.noConfusion this
    have b : i' = j := by
      by_contra ne
      have : (Function.update s.pcs j pc i').holds = true := hi'
      rw [Function.update_noteq ne, h.holder_unique hj i' ne] at this
      exact Bool.noConfusion this
    rw [a, b]
  entry := h.entry
  entry_fresh := h.entry_fresh
  absent_fresh := by
    intro e
    rcases h.absent_fresh e with a | ⟨a, i, hi⟩
    · exact Or.inl a
    · refine Or.inr ⟨a, i, ?_⟩
      have ne : i ≠ j := by
        intro e'
        rw [e'] at hi
        exact hmade _ hi
      show Function.update s.pcs j pc i = _
      rw [Function.update_noteq ne, hi]
  others := h.others
  pcOk := by
    intro i
    show PcOk k reg0.fresh s.reg (Function.update s.pcs j pc i)
    by_cases e : i = j
    · rw [e, Function.update_same]; exact hok
    · rw [Function.update_noteq e]; exact h.pcOk i

theorem update_holds_unique (pcs : Nat → Pc) (j : Nat) (pc : Pc)
    (h : ∀ i, i ≠ j → (pcs i).holds = false) (i i' : Nat)
    (hi : (Function.update pcs j pc i).holds = true)
    (hi' : (Function.update pcs j pc i').holds = true) : i = i' := by
  have a : i = j := by
    by_contra ne
    rw [Function.update_noteq ne, h i ne] at hi
    exact Bool.noConfusion hi
  have b : i' = j := by
    by_contra ne
    rw [Function.update_noteq ne, h i' ne] at hi'
    exact Bool.noConfusion hi'
  rw [a, b]

theorem PcOk.of_not_holds (k : String) (f0 : Nat) (reg reg' : Registry) (pc : Pc)
    (hpc : pc.holds = false) (hok : PcOk k f0 reg pc) (habs : reg.visitors k = none) :
    PcOk k f0 reg' pc := by
  cases pc with
  | start => trivial
  | locked => exact Bool.noConfusion hpc
  | looked f => exact Bool.noConfusion hpc
  | made l => exact Bool.noConfusion hpc
  | ready l => exact Bool.noConfusion hpc
  | done l =>
    have : reg.visitors k = some f0 := hok.2.1
    rw [habs] at this
    exact Option.noConfusion this

theorem step_inv (k : String) (reg0 : Registry) (now : ℚ) (j : Nat) (s : Sys)
    (h : SysInv k reg0 s) : SysInv k reg0 (step k now j s) := by
  unfold step
  have hj := h.pcOk j
  cases hpc : s.pcs j with
  | start =>
    dsimp only
    cases hmu : s.mu with
    | true => rw [if_pos rfl]; exact h
    | false =>
      rw [if_neg (by simp)]
      have hfree := h.lock_free hmu
      exact
        { lock_held := fun _ => ⟨j, by simp [Pc.holds]⟩
          lock_free := fun e => Bool.noConfusion e
          unique := update_holds_unique s.pcs j Pc.locked (fun i _ => hfree i)
          entry := h.entry
          entry_fresh := h.entry_fresh
          absent_fresh := by
            intro e
            rcases h.absent_fresh e with a | ⟨_, i, hi⟩
            · exact Or.inl a
            · have := hfree i
              rw [hi] at this
              exact Bool.noConfusion this
          others := h.others
          pcOk := by
            intro i
            show PcOk k reg0.fresh s.reg (Function.update s.pcs j Pc.locked i)
            by_cases e : i = j
            · rw [e, Function.update_same]; trivial
            · rw [Function.update_noteq e]; exact h.pcOk i }
  | locked =>
    dsimp only
    have hh : (s.pcs j).holds = true := by rw [hpc]; rfl
    apply h.move j hh (Pc.looked (s.reg.visitors k)) rfl
    · refine ⟨rfl, ?_⟩
      intro e
      rcases h.absent_fresh e with a | ⟨_, i, hi⟩
      · exact a
      · have hi' : (s.pcs i).holds = true := by rw [hi]; rfl
        have := h.unique i j hi' hh
        rw [this, hpc] at hi
        exact Pc.noConfusion hi
    · intro l e
      rw [hpc] at e
      exact Pc.noConfusion e
  | looked found =>
    have hh : (s.pcs j).holds = true := by rw [hpc]; rfl
    rw [hpc] at hj
    cases found with
    | some l =>
      dsimp only
      have hj1 : some l = s.reg.visitors k := hj.1
      apply h.move j hh (Pc.ready l) rfl
      · have e : reg0.fresh = l := by
          rcases h.entry with a | a
          · rw [a] at hj1
            exact Option.noConfusion hj1
          · rw [a] at hj1
            exact (Option.some.inj hj1).symm
        have hv : s.reg.visitors k = some reg0.fresh := by rw [e]; exact hj1.symm
        exact ⟨e.symm, hv, h.entry_fresh hv⟩
      · intro l' e
        rw [hpc] at e
        exact Pc.noConfusion e
    | none =>
      dsimp only
      have hv : s.reg.visitors k = none := hj.1.symm
      have hf : s.reg.fresh = reg0.fresh := hj.2 rfl
      exact
        { lock_held := fun _ => ⟨j, by simp [Pc.holds]⟩
          lock_free := by
            intro e
            have := h.holder_locked hh
            rw [show s.mu = false from e] at this
            exact Bool.noConfusion this
          unique := update_holds_unique s.pcs j _ (fun i ne => h.holder_unique hh i ne)
          entry := Or.inl hv
          entry_fresh := by
            intro e
            have : s.reg.visitors k = some reg0.fresh := e
            rw [hv] at this
            exact Option.noConfusion this
          absent_fresh := by
            intro _
            refine Or.inr ⟨?_, j, ?_⟩
            · show s.reg.fresh + 1 = reg0.fresh + 1
              rw [hf]
            · show Function.update s.pcs j (Pc.made s.reg.fresh) j = _
              rw [Function.update_same, hf]
          others := h.others
          pcOk := by
            intro i
            show PcOk k reg0.fresh _ (Function.update s.pcs j (Pc.made s.reg.fresh) i)
            by_cases e : i = j
            · rw [e, Function.update_same]
              exact ⟨hf, hv, by show s.reg.fresh + 1 = _; rw [hf]⟩
            · rw [Function.update_noteq e]
              exact PcOk.of_not_holds k reg0.fresh s.reg _ _ (h.holder_unique hh i e)
                (h.pcOk i) hv }
  | made l =>
    dsimp only
    have hh : (s.pcs j).holds = true := by rw [hpc]; rfl
    rw [hpc] at hj
    obtain ⟨hl, hv, hf⟩ := hj
    exact
      { lock_held := fun _ => ⟨j, by simp [Pc.holds]⟩
        lock_free := by
          intro e
          have := h.holder_locked hh
          rw [show s.mu = false from e] at this
          exact Bool.noConfusion this
        unique := update_holds_unique s.pcs j _ (fun i ne => h.holder_unique hh i ne)
        entry := by
          refine Or.inr ?_
          show (if k = k then some l else s.reg.visitors k) = _
          rw [if_pos rfl, hl]
        entry_fresh := fun _ => hf
        absent_fresh := by
          intro e
          have : (if k = k then some l else s.reg.visitors k) = none := e
          rw [if_pos rfl] at this
          exact Option.noConfusion this
        others := by
          intro k' ne
          show (if k' = k then some l else s.reg.visitors k') = _
          rw [if_neg ne]
          exact h.others k' ne
        pcOk := by
          intro i
          show PcOk k reg0.fresh _ (Function.update s.pcs j (Pc.ready l) i)
          by_cases e : i = j
          · rw [e, Function.update_same]
            refine ⟨hl, ?_, hf⟩
            show (if k = k then some l else s.reg.visitors k) = _
            rw [if_pos rfl, hl]
          · rw [Function.update_noteq e]
            exact PcOk.of_not_holds k reg0.fresh s.reg _ _ (h.holder_unique hh i e)
              (h.pcOk i) hv }
  | ready l =>
    dsimp only
    have hh : (s.pcs j).holds = true := by rw [hpc]; rfl
    rw [hpc] at hj
    have hnone : ∀ i, (Function.update s.pcs j (Pc.done l) i).holds = false := by
      intro i
      by_cases e : i = j
      · rw [e, Function.update_same]; rfl
      · rw [Function.update_noteq e]; exact h.holder_unique hh i e
    exact
      { lock_held := fun e => Bool.noConfusion e
        lock_free := fun _ => hnone
        unique := by
          intro i i' hi
          have := hnone i
          rw [show (Function.update s.pcs j (Pc.done l) i).holds = true from hi] at this
          exact Bool.noConfusion this
        entry := h.entry
        entry_fresh := h.entry_fresh
        absent_fresh := by
          intro e
          have : s.reg.visitors k = none := e
          rw [hj.2.1] at this
          exact Option.noConfusion this
        others := h.others
        pcOk := by
          intro i
          show PcOk k reg0.fresh s.reg (Function.update s.pcs j (Pc.done l) i)
          by_cases e : i = j
          · rw [e, Function.update_same]; exact hj
          · rw [Function.update_noteq e]; exact h.pcOk i }
  | done l => exact h

theorem runSchedule_inv (k : String) (reg0 : Registry) (sched : List (Nat × ℚ)) :
    ∀ s : Sys, SysInv k reg0 s → SysInv k reg0 (runSchedule k s sched) := by
  induction sched with
  | nil => intro s h; exact h
  | cons c cs ih => intro s h; exact ih _ (step_inv k reg0 c.2 c.1 s h)

theorem runSchedule_append (k : String) (a b : List (Nat × ℚ)) :
    ∀ s : Sys, runSchedule k s (a ++ b) = runSchedule k (runSchedule k s a) b := by
  induction a with
  | nil => intro s; rfl
  | cons c cs ih => intro s; exact ih _

theorem step_pcs_other (k : String) (now : ℚ) (j : Nat) (s : Sys) (i : Nat) (hi : i ≠ j) :
    (step k now j s).pcs i = s.pcs i := by
  unfold step
  cases hpc : s.pcs j with
  | start =>
    dsimp only
    split_ifs
    · rfl
    · exact Function.update_noteq hi _ _
  | locked => exact Function.update_noteq hi _ _
  | looked found =>
    cases found with
    | none => exact Function.update_noteq hi _ _
    | some l => exact Function.update_noteq hi _ _
  | made l => exact Function.update_noteq hi _ _
  | ready l => exact Function.update_noteq hi _ _
  | done l => rfl

theorem step_done (k : String) (now : ℚ) (j : Nat) (s : Sys) (p : Nat)
    (h : s.pcs j = Pc.done p) : step k now j s = s := by
  unfold step
  rw [h]

theorem step_ready (k : String) (now : ℚ) (j : Nat) (s : Sys) (p : Nat)
    (h : s.pcs j = Pc.ready p) :
    (step k now j s).mu = false ∧ (step k now j s).pcs j = Pc.done p := by
  unfold step
  rw [h]
  exact ⟨rfl, Function.update_same _ _ _⟩

theorem step_made (k : String) (now : ℚ) (j : Nat) (s : Sys) (p : Nat)
    (h : s.pcs j = Pc.made p) : (step k now j s).pcs j = Pc.ready p := by
  unfold step
  rw [h]
  exact Function.update_same _ _ _

theorem step_looked (k : String) (now : ℚ) (j : Nat) (s : Sys) (f : Option Nat)
    (h : s.pcs j = Pc.looked f) :
    (∃ p, (step k now j s).pcs j = Pc.ready p) ∨ (∃ p, (step k now j s).pcs j = Pc.made p) := by
  unfold step
  rw [h]
  cases f with
  | none => exact Or.inr ⟨_, Function.update_same _ _ _⟩
  | some l => exact Or.inl ⟨_, Function.update_same _ _ _⟩

theorem step_locked (k : String) (now : ℚ) (j : Nat) (s : Sys) (h : s.pcs j = Pc.locked) :
    ∃ f, (step k now j s).pcs j = Pc.looked f := by
  unfold step
  rw [h]
  exact ⟨_, Function.update_same _ _ _⟩

theorem step_start (k : String) (now : ℚ) (j : Nat) (s : Sys) (h : s.pcs j = Pc.start)
    (hmu : s.mu = false) : (step k now j s).pcs j = Pc.locked := by
  unfold step
  rw [h]
  dsimp only
  rw [hmu, if_neg (by simp)]
  exact Function.update_same _ _ _

/-- Goroutine `j` running alone returns within five steps, provided it holds the mutex or
the mutex is free; it releases the mutex and moves no other goroutine. -/
theorem finish_thread (k : String) (now : ℚ) (j : Nat) (s : Sys)
    (h : (s.pcs j).holds = true ∨ s.mu = false) (hdone : ∀ p, s.pcs j = Pc.done p → s.mu = false) :
    (runSchedule k s (List.replicate 5 (j, now))).mu = false ∧
    (∃ p, (runSchedule k s (List.replicate 5 (j, now))).pcs j = Pc.done p) ∧
    (∀ i, i ≠ j → (runSchedule k s (List.replicate 5 (j, now))).pcs i = s.pcs i) := by
  have others : ∀ (n : Nat) (s : Sys) (i : Nat), i ≠ j →
      (runSchedule k s (List.replicate n (j, now))).pcs i = s.pcs i := by
    intro n
    induction n with
    | zero => intro s i _; rfl
    | succ n ih =>
      intro s i hi
      show (runSchedule k (step k now j s) (List.replicate n (j, now))).pcs i = _
      rw [ih _ i hi, step_pcs_other k now j s i hi]
  have fromDone : ∀ (n : Nat) (s : Sys) (p : Nat), s.pcs j = Pc.done p →
      runSchedule k s (List.replicate n (j, now)) = s := by
    intro n
    induction n with
    | zero => intro s p _; rfl
    | succ n ih =>
      intro s p hp
      show runSchedule k (step k now j s) (List.replicate n (j, now)) = s
      rw [step_done k now j s p hp]
      exact ih s p hp
  have fromReady : ∀ (n : Nat) (s : Sys) (p : Nat), s.pcs j = Pc.ready p →
      (runSchedule k s (List.replicate (n + 1) (j, now))).mu = false ∧
      ∃ q, (runSchedule k s (List.replicate (n + 1) (j, now))).pcs j = Pc.done q := by
    intro n s p hp
    obtain ⟨a, b⟩ := step_ready k now j s p hp
    show (runSchedule k (step k now j s) (List.replicate n (j, now))).mu = false ∧
      ∃ q, (runSchedule k (step k now j s) (List.replicate n (j, now))).pcs j = Pc.done q
    rw [fromDone n _ p b]
    exact ⟨a, p, b⟩
  have fromMade : ∀ (n : Nat) (s : Sys) (p : Nat), s.pcs j = Pc.made p →
      (runSchedule k s (List.replicate (n + 2) (j, now))).mu = false ∧
      ∃ q, (runSchedule k s (List.replicate (n + 2) (j, now))).pcs j = Pc.done q := by
    intro n s p hp
    exact fromReady n (step k now j s) p (step_made k now j s p hp)
  have fromLooked : ∀ (n : Nat) (s : Sys) (f : Option Nat), s.pcs j = Pc.looked f →
      (runSchedule k s (List.replicate (n + 3) (j, now))).mu = false ∧
      ∃ q, (runSchedule k s (List.replicate (n + 3) (j, now))).pcs j = Pc.done q := by
    intro n s f hf
    rcases step_looked k now j s f hf with ⟨p, hp⟩ | ⟨p, hp⟩
    · exact fromReady (n + 1) (step k now j s) p hp
    · exact fromMade n (step k now j s) p hp
  have fromLocked : ∀ (n : Nat) (s : Sys), s.pcs j = Pc.locked →
      (runSchedule k s (List.replicate (n + 4) (j, now))).mu = false ∧
      ∃ q, (runSchedule k s (List.replicate (n + 4) (j, now))).pcs j = Pc.done q := by
    intro n s hl
    obtain ⟨f, hf⟩ := step_locked k now j s hl
    exact fromLooked n (step k now j s) f hf
  refine ⟨?_, ?_, others 5 s⟩
  · cases hpc : s.pcs j with
    | start =>
      have hmu : s.mu = false := by
        rcases h with h | h
        · rw [hpc] at h; exact Bool.noConfusion h
        · exact h
      exact (fromLocked 0 (step k now j s) (step_start k now j s hpc hmu)).1
    | locked => exact (fromLocked 1 s hpc).1
    | looked f => exact (fromLooked 2 s f hpc).1
    | made p => exact (fromMade 3 s p hpc).1
    | ready p => exact (fromReady 4 s p hpc).1
    | done p =>
      rw [fromDone 5 s p hpc]
      exact hdone p hpc
  · cases hpc : s.pcs j with
    | start =>
      have hmu : s.mu = false := by
        rcases h with h | h
        · rw [hpc] at h; exact Bool.noConfusion h
        · exact h
      exact (fromLocked 0 (step k now j s) (step_start k now j s hpc hmu)).2
    | locked => exact (fromLocked 1 s hpc).2
    | looked f => exact (fromLooked 2 s f hpc).2
    | made p => exact (fromMade 3 s p hpc).2
    | ready p => exact (fromReady 4 s p hpc).2
    | done p =>
      rw [fromDone 5 s p hpc]
      exact ⟨p, hpc⟩

theorem finish_all (k : String) (n : Nat) :
    ∀ s : Sys, s.mu = false →
      ∃ rest, (runSchedule k s rest).mu = false ∧
        ∀ i, i < n → ∃ p, (runSchedule k s rest).pcs i = Pc.done p := by
  induction n with
  | zero => intro s hmu; exact ⟨[], hmu, fun i hi => absurd hi (Nat.not_lt_zero i)⟩
  | succ n ih =>
    intro s hmu
    obtain ⟨rest, h1, h2⟩ := ih s hmu
    obtain ⟨a, b, c⟩ := finish_thread k 0 n (runSchedule k s rest) (Or.inr h1) (fun _ _ => h1)
    refine ⟨rest ++ List.replicate 5 (n, 0), ?_, ?_⟩
    · rw [runSchedule_append]; exact a
    · intro i hi
      rw [runSchedule_append]
      by_cases e : i = n
      · rw [e]; exact b
      · rw [c i e]
        exact h2 i (Nat.lt_of_le_of_ne (Nat.le_of_lt_succ hi) e)

/-- No interleaving deadlocks: it can always be continued until the first `n` goroutines
have returned. -/
theorem can_finish (k : String) (reg0 : Registry) (s : Sys) (h : SysInv k reg0 s) (n : Nat) :
    ∃ rest, ∀ i, i < n → ∃ p, (runSchedule k s rest).pcs i = Pc.done p := by
  cases hmu : s.mu with
  | false =>
    obtain ⟨rest, _, h2⟩ := finish_all k n s hmu
    exact ⟨rest, h2⟩
  | true =>
    obtain ⟨j, hj⟩ := h.lock_held hmu
    obtain ⟨a, _, _⟩ := finish_thread k 0 j s (Or.inl hj)
      (by intro p e; rw [e] at hj; exact Bool.noConfusion hj)
    obtain ⟨rest, _, h2⟩ := finish_all k n _ a
    refine ⟨List.replicate 5 (j, 0) ++ rest, ?_⟩
    intro i hi
    rw [runSchedule_append]
    exact h2 i hi

/-- A goroutine that runs `getVisitor` without interference does what the function
`getVisitor` of the sequential embedding does. -/
theorem solo_run_eq_getVisitor (k : String) (now : ℚ) (j : Nat) (s : Sys)
    (hpc : s.pcs j = Pc.start) (hmu : s.mu = false) :
    (runSchedule k s (List.replicate 5 (j, now))).pcs j = Pc.done (getVisitor k now s.reg).1 ∧
    (runSchedule k s (List.replicate 5 (j, now))).reg = (getVisitor k now s.reg).2 := by
  cases hv : s.reg.visitors k with
  | none =>
    simp [List.replicate, runSchedule, step, hpc, hmu, hv, getVisitor, Function.update_same]
  | some p =>
    simp [List.replicate, runSchedule, step, hpc, hmu, hv, getVisitor, Function.update_same]

theorem sampleSchedule_returns :
    (runSchedule "127.0.0.1" (Sys.init emptyRegistry) sampleSchedule).pcs 0 = Pc.done 0 ∧
    (runSchedule "127.0.0.1" (Sys.init emptyRegistry) sampleSchedule).pcs 1 = Pc.done 0 ∧
    (runSchedule "127.0.0.1" (Sys.init emptyRegistry) sampleSchedule).pcs 2 = Pc.done 0 ∧
    (runSchedule "127.0.0.1" (Sys.init emptyRegistry) sampleSchedule).reg.fresh = 1 := by
  refine ⟨?_, ?_, ?_, ?_⟩ <;> rfl

/-- C10: let any number of goroutines call `getVisitor(k)` concurrently, in any
interleaving of their steps, on a registry without an entry for `k`.  At every moment at
most one goroutine is between `mu.Lock()` and `mu.Unlock()`, at most one bucket has been
created, and every call that has returned has returned the address of that one bucket,
which the registry stores under `k`; the entries of other keys are untouched; and the
interleaving can be continued until the first `n` goroutines have all returned, each with
that same address. -/
theorem concurrent_first_calls_one_bucket (reg : Registry) (k : String)
    (h : reg.visitors k = none) (sched : List (Nat × ℚ)) (n : Nat) :
    (∀ i j, ((runSchedule k (Sys.init reg) sched).pcs i).holds = true →
      ((runSchedule k (Sys.init reg) sched).pcs j).holds = true → i = j) ∧
    (runSchedule k (Sys.init reg) sched).reg.fresh ≤ reg.fresh + 1 ∧
    (∀ i p, (runSchedule k (Sys.init reg) sched).pcs i = Pc.done p →
      p = reg.fresh ∧
      (runSchedule k (Sys.init reg) sched).reg.visitors k = some reg.fresh ∧
      (runSchedule k (Sys.init reg) sched).reg.fresh = reg.fresh + 1) ∧
    (∀ k', k' ≠ k → (runSchedule k (Sys.init reg) sched).reg.visitors k' = reg.visitors k') ∧
    (∃ rest, ∀ i, i < n →
      (runSchedule k (Sys.init reg) (sched ++ rest)).pcs i = Pc.done reg.fresh) := by
  have inv := runSchedule_inv k reg sched _ (SysInv.init k reg h)
  refine ⟨inv.unique, ?_, ?_, inv.others, ?_⟩
  · rcases inv.entry with e | e
    · rcases inv.absent_fresh e with a | ⟨a, _⟩
      · rw [a]; exact Nat.le_succ _
      · rw [a]
    · rw [inv.entry_fresh e]
  · intro i p hp
    have := inv.pcOk i
    rw [hp] at this
    exact this
  · obtain ⟨rest, hrest⟩ := can_finish k reg _ inv n
    refine ⟨rest, ?_⟩
    intro i hi
    obtain ⟨p, hp⟩ := hrest i hi
    rw [runSchedule_append, hp]
    have inv' := runSchedule_inv k reg rest _ inv
    have := inv'.pcOk i
    rw [hp] at this
    rw [this.1]

theorem concurrent_first_calls_one_bucket_witness :
    emptyRegistry.visitors "127.0.0.1" = none ∧
    (runSchedule "127.0.0.1" (Sys.init emptyRegistry) sampleSchedule).reg.fresh ≤
      emptyRegistry.fresh + 1 ∧
    (∀ i p, (runSchedule "127.0.0.1" (Sys.init emptyRegistry) sampleSchedule).pcs i = Pc.done p →
      p = emptyRegistry.fresh ∧
      (runSchedule "127.0.0.1" (Sys.init emptyRegistry) sampleSchedule).reg.visitors "127.0.0.1" =
        some emptyRegistry.fresh ∧
      (runSchedule "127.0.0.1" (Sys.init emptyRegistry) sampleSchedule).reg.fresh =
        emptyRegistry.fresh + 1) :=
  ⟨rfl, (concurrent_first_calls_one_bucket emptyRegistry "127.0.0.1" rfl sampleSchedule 3).2.1,
    (concurrent_first_calls_one_bucket emptyRegistry "127.0.0.1" rfl sampleSchedule 3).2.2.1⟩

end RateLimit
